import Mathlib

/-!
Seat reservation for two 24-seat flights (`solution.c`).

A shallow embedding of the seat ledger of `solution.c` and the properties of its
operations.

Modelling conventions.

* A `char[NAMELEN]` name field is represented by its C-string contents: the bytes
  (as `unsigned char` values) that precede the first NUL.  The program reads names
  only through `strcmp` and `%s`, and writes them only through `strcpy` and
  `x[0] = 0`, all of which are determined by, and determine, these contents.
* `int` fields and the scanned seat number are integers; no arithmetic in the
  program can overflow (every counter stays within `0..24`).
* A `for (i = 0; i < SEATS; i++)` loop is a left fold over the indices `0..23`
  (`List.finRange SEATS`); the loops of the selection sort are left folds over
  the corresponding index ranges.
* The functions that print are modelled by the data they print.
* The functions that read from standard input take the results of their `scanf`
  calls as an explicit argument.
* The menu loops of `main` and `second_menu` are a transition system on the two
  flights and the active menu.  A second transcription keeps the two flights in one
  memory and passes their addresses, to state what a write through a `Flight *`
  can reach.
* The list-based model of `show_alpha_list` reads `idx` with a default value; a
  second transcription checks the bounds of every array access and is proved to
  agree with it.
-/

namespace Solution

/-- The constant `SEATS`: number of seats on the plane. -/
abbrev SEATS : Nat := 24

/-- The constant `NAMELEN`: bytes of a name field, terminator included. -/
abbrev NAMELEN : Nat := 20

/-- The contents of a C string: its bytes before the terminating NUL. -/
abbrev CString := List Nat

/-- The bytes of a string literal. -/
def cstr (s : String) : CString := s.toList.map Char.toNat

/-- The record `Seat`: seat number, the flag `assigned` (0 = empty, anything else =
taken) and the two name fields. -/
structure Seat where
  id : Int
  assigned : Int
  first : CString
  last : CString
deriving DecidableEq, Repr

/-- The record `Flight`: an array of `SEATS` seat records, indexed by `0..23`. -/
structure Flight where
  seat : Fin SEATS → Seat

/-- The function `strcmp` of the C library: compares byte by byte as `unsigned char`; the end of a
string (its NUL) is below every other byte.  The C standard fixes only the sign of
the result; the model returns `-1`, `0` or `1`. -/
def strcmp : CString → CString → Int
  | [], [] => 0
  | [], _ :: _ => -1
  | _ :: _, [] => 1
  | a :: s, b :: t => if a < b then -1 else if b < a then 1 else strcmp s t

/-- The function `tolower` of the C library in the "C" locale. -/
def tolower (c : Nat) : Nat := if 65 ≤ c ∧ c ≤ 90 then c + 32 else c

/-- Function `init_flight`: give every seat an id and mark it as empty. -/
def init_flight (f : Flight) : Flight :=
  (List.finRange SEATS).foldl
    (fun g i => ⟨Function.update g.seat i
      { id := (i.val : Int) + 1, assigned := 0, first := [], last := [] }⟩) f

/-- Function `count_empty`: tally of the seats that are not assigned. -/
def count_empty (f : Flight) : Nat :=
  (List.finRange SEATS).foldl (fun c i => if (f.seat i).assigned = 0 then c + 1 else c) 0

/-- Function `show_empty_list`: the seat numbers printed, in printing order.  The text
`(none)` is printed exactly when nothing was printed by the loop, that is when the
returned list is empty. -/
def show_empty_list (f : Flight) : List Int :=
  (List.finRange SEATS).foldl
    (fun out i => if (f.seat i).assigned = 0 then out ++ [(f.seat i).id] else out) []

/-- Function `name_cmp`: compares two seats by last name, then first name. -/
def name_cmp (a b : Seat) : Int :=
  let c := strcmp a.last b.last
  if c = 0 then strcmp a.first b.first else c

/-- One printed line `Seat %2d: %s %s` of the alphabetical list. -/
structure Row where
  id : Int
  first : CString
  last : CString
deriving DecidableEq, Repr

/-- First loop of `show_alpha_list`: `if (f->seat[i].assigned) idx[n++] = i;`.
The array `idx` together with its fill count `n` is the list of the entries
written so far. -/
def collect_assigned (f : Flight) : List (Fin SEATS) :=
  (List.finRange SEATS).foldl
    (fun idx i => if (f.seat i).assigned ≠ 0 then idx ++ [i] else idx) []

/-- Inner loop of the selection sort: `for (j = i + 1; j < n; j++)`, yielding the
final value of `minpos`. -/
def find_minpos (f : Flight) (idx : List (Fin SEATS)) (n i : Nat) : Nat :=
  (List.range' (i + 1) (n - (i + 1))).foldl
    (fun minpos j =>
      if name_cmp (f.seat (idx.getD j 0)) (f.seat (idx.getD minpos 0)) < 0 then j else minpos) i

/-- Body of the outer loop of the selection sort for one value of `i`. -/
def sort_pass (f : Flight) (n : Nat) (idx : List (Fin SEATS)) (i : Nat) : List (Fin SEATS) :=
  let minpos := find_minpos f idx n i
  if minpos ≠ i then
    let tmp := idx.getD i 0
    let idx1 := idx.set i (idx.getD minpos 0)
    idx1.set minpos tmp
  else idx

/-- The selection sort on indices: `for (i = 0; i < n - 1; i++)`. -/
def selection_sort (f : Flight) (idx : List (Fin SEATS)) : List (Fin SEATS) :=
  (List.range (idx.length - 1)).foldl (sort_pass f idx.length) idx

/-- The contents of `idx[0..n)` when `show_alpha_list` starts printing. -/
def alpha_order (f : Flight) : List (Fin SEATS) :=
  selection_sort f (collect_assigned f)

/-- Function `show_alpha_list`: the lines printed, in printing order (`(none)` is printed
when there is no assigned seat, and the result is then empty). -/
def show_alpha_list (f : Flight) : List Row :=
  let idx := collect_assigned f
  let n := idx.length
  if n = 0 then []
  else
    let idx := selection_sort f idx
    (List.range n).map (fun i =>
      let k := idx.getD i 0
      { id := (f.seat k).id, first := (f.seat k).first, last := (f.seat k).last })

/-- What an interactive operation reports on the console. -/
inductive Outcome
  /-- Message `No empty seats.` -/
  | NoEmptySeats
  /-- Message `Invalid input.` -/
  | InvalidInput
  /-- Message `Assignment canceled.` or `Delete canceled.` -/
  | Canceled
  /-- Message `Seat out of range.` -/
  | OutOfRange
  /-- Message `Seat %d is already taken.` -/
  | AlreadyTaken (seatno : Int)
  /-- Message `Assigned seat %d to %s %s.` -/
  | Assigned (seatno : Int) (first last : CString)
  /-- Message `Seat %d is already empty.` -/
  | AlreadyEmpty (seatno : Int)
  /-- Message `Seat cleared.` -/
  | Cleared
  /-- Message `No changes made.` -/
  | NoChanges
deriving DecidableEq, Repr

/-- The function `isspace` of the C library in the "C" locale: space, and the
bytes 9 to 13 (tab, newline, vertical tab, form feed, carriage return). -/
def isspace (c : Nat) : Bool := decide (c = 32 ∨ (9 ≤ c ∧ c ≤ 13))

/-- The C string held by a `char` array whose first bytes are `bytes`, followed by
a NUL: the bytes before the first NUL.  This is what `strcpy` copies and what `%s`
prints. -/
def c_string (bytes : List Nat) : CString := bytes.takeWhile (fun b => decide (b ≠ 0))

/-- The call `scanf("%19s", buf)`: `word` is the run of non-whitespace bytes at the head of
the remaining input, empty at end of input, where the call fails.  At most
`NAMELEN - 1` bytes of it are stored in `buf`, followed by a NUL; the result is the
C string then held by `buf`, which stops at the first NUL byte of the word if it
has one. -/
def scanf_s19 (word : CString) : Option CString :=
  if word = [] then none else some (c_string (word.take (NAMELEN - 1)))

/-- What `assign_seat` reads: the result of `scanf("%d", &seatno)` (`none` when the
conversion fails) and the words met by the two `scanf("%19s", ...)` calls. -/
structure AssignInput where
  seatno : Option Int
  first : CString
  last : CString

/-- What `delete_seat` reads: the result of `scanf("%d", &seatno)` and the byte read
by `scanf(" %c", &ans)` (`none` when the call fails). -/
structure DeleteInput where
  seatno : Option Int
  ans : Option Nat

/-- Function `assign_seat`: ask for a seat number and a name; validates range and
whether the seat is already taken.  The list of empty seats it prints first is
not part of the result. -/
def assign_seat (f : Flight) (inp : AssignInput) : Flight × Outcome :=
  if count_empty f = 0 then (f, Outcome.NoEmptySeats)
  else
    match inp.seatno with
    | none => (f, Outcome.InvalidInput)
    | some seatno =>
      if seatno = 0 then (f, Outcome.Canceled)
      else if h : seatno < 1 ∨ seatno > SEATS then (f, Outcome.OutOfRange)
      else
        let k : Fin SEATS := ⟨(seatno - 1).toNat, by omega⟩
        if (f.seat k).assigned ≠ 0 then (f, Outcome.AlreadyTaken seatno)
        else
          match scanf_s19 inp.first with
          | none => (f, Outcome.InvalidInput)
          | some first =>
            match scanf_s19 inp.last with
            | none => (f, Outcome.InvalidInput)
            | some last =>
              let f1 : Flight := ⟨Function.update f.seat k { f.seat k with first := first }⟩
              let f2 : Flight := ⟨Function.update f1.seat k { f1.seat k with last := last }⟩
              let f3 : Flight := ⟨Function.update f2.seat k { f2.seat k with assigned := 1 }⟩
              (f3, Outcome.Assigned seatno first last)

/-- Function `delete_seat`: ask for a seat number, confirm, then clear. -/
def delete_seat (f : Flight) (inp : DeleteInput) : Flight × Outcome :=
  match inp.seatno with
  | none => (f, Outcome.InvalidInput)
  | some seatno =>
    if seatno = 0 then (f, Outcome.Canceled)
    else if h : seatno < 1 ∨ seatno > SEATS then (f, Outcome.OutOfRange)
    else
      let k : Fin SEATS := ⟨(seatno - 1).toNat, by omega⟩
      if (f.seat k).assigned = 0 then (f, Outcome.AlreadyEmpty seatno)
      else
        match inp.ans with
        | none => (f, Outcome.InvalidInput)
        | some ans =>
          if tolower ans = 121 then
            let f1 : Flight := ⟨Function.update f.seat k { f.seat k with assigned := 0 }⟩
            let f2 : Flight := ⟨Function.update f1.seat k { f1.seat k with first := [] }⟩
            let f3 : Flight := ⟨Function.update f2.seat k { f2.seat k with last := [] }⟩
            (f3, Outcome.Cleared)
          else (f, Outcome.NoChanges)

/-- The flight states the program can be in: `main` runs `init_flight` on each
flight, and afterwards a flight is only passed to `assign_seat` and `delete_seat`
(the other functions take it as `const`). -/
inductive Reachable : Flight → Prop
  | init (f : Flight) : Reachable (init_flight f)
  | assign {f : Flight} (inp : AssignInput) : Reachable f → Reachable (assign_seat f inp).1
  | delete {f : Flight} (inp : DeleteInput) : Reachable f → Reachable (delete_seat f inp).1

/-- A flight given by its 24 seat records, for concrete examples. -/
def Flight.ofList (l : List Seat) : Flight :=
  ⟨fun i => l.getD i.val { id := (i.val : Int) + 1, assigned := 0, first := [], last := [] }⟩

/-- The flight in which every seat is empty, as `init_flight` leaves it. -/
def emptyFlight : Flight := init_flight ⟨fun _ => { id := 0, assigned := 0, first := [], last := [] }⟩

instance : DecidableEq Flight := fun a b =>
  decidable_of_iff (∀ i, a.seat i = b.seat i)
    ⟨fun h => by cases a; cases b; congr; exact funext h, fun h i => by rw [h]⟩

/-! ## The menus

The two nested menu loops are modelled as a transition system: the program state
holds the two flights and the menu in which the program currently is, and one
transition is one pass through the body of the active loop.  A pass is given the
results of every `scanf` call it may make; those of calls that are not made are
ignored. -/

/-- What one pass through a menu loop reads: the byte read by `scanf(" %c", &choice)`
(`none` when the call fails) and, for the second-level menu, what `assign_seat` or
`delete_seat` reads when it is called. -/
structure MenuInput where
  choice : Option Nat
  assign : AssignInput
  delete : DeleteInput

/-- What one pass through the loop of `second_menu` prints. -/
inductive Shown
  /-- Text `Invalid input.` -/
  | InvalidInput
  /-- Text `Empty seats: %d out of %d`, printed by `show_num_empty`. -/
  | NumEmpty (count total : Nat)
  /-- The seat numbers printed by `show_empty_list`. -/
  | EmptyList (ids : List Int)
  /-- The lines printed by `show_alpha_list`. -/
  | AlphaList (rows : List Row)
  /-- The report of `assign_seat` or `delete_seat`. -/
  | Result (o : Outcome)
  /-- Nothing: the function returns to the first menu. -/
  | Return
  /-- Text `Invalid choice.` -/
  | InvalidChoice
deriving DecidableEq, Repr

/-- Function `show_num_empty`: the two numbers printed. -/
def show_num_empty (f : Flight) : Nat × Nat := (count_empty f, SEATS)

/-- One pass through the loop of `second_menu` on the flight `f`: the flight
afterwards, what is printed, and whether `second_menu` returns.  The choices are
`a` (97) to `f` (102) after `tolower`. -/
def second_menu_pass (f : Flight) (inp : MenuInput) : Flight × Shown × Bool :=
  match inp.choice with
  | none => (f, Shown.InvalidInput, false)
  | some c =>
    let choice := tolower c
    if choice = 97 then (f, Shown.NumEmpty (show_num_empty f).1 (show_num_empty f).2, false)
    else if choice = 98 then (f, Shown.EmptyList (show_empty_list f), false)
    else if choice = 99 then (f, Shown.AlphaList (show_alpha_list f), false)
    else if choice = 100 then
      ((assign_seat f inp.assign).1, Shown.Result (assign_seat f inp.assign).2, false)
    else if choice = 101 then
      ((delete_seat f inp.delete).1, Shown.Result (delete_seat f inp.delete).2, false)
    else if choice = 102 then (f, Shown.Return, true)
    else (f, Shown.InvalidChoice, false)

/-- The menu loop the program is in. -/
inductive Menu
  /-- The loop of `main`. -/
  | First
  /-- The loop of `second_menu(&outbound, "Outbound")`. -/
  | Outbound
  /-- The loop of `second_menu(&inbound, "Inbound")`. -/
  | Inbound
  /-- After `Goodbye!`: `main` has returned. -/
  | Quit
deriving DecidableEq, Repr

/-- The state of `main`: its two local flights and the active menu. -/
structure Program where
  outbound : Flight
  inbound : Flight
  menu : Menu

/-- The state of `main` when its loop starts: both flights initialised, whatever
the memory held before. -/
def main_start (g1 g2 : Flight) : Program :=
  { outbound := init_flight g1, inbound := init_flight g2, menu := Menu.First }

/-- One pass through the active loop.  In the first menu the choices `a`, `b`, `c`
(after `tolower`) enter `second_menu` on the outbound flight, enter it on the
inbound flight, and quit.  In a second-level menu the pass is that of
`second_menu` on the flight whose address was passed to it. -/
def main_pass (p : Program) (inp : MenuInput) : Program :=
  match p.menu with
  | Menu.First =>
    match inp.choice with
    | none => p
    | some c =>
      let choice := tolower c
      if choice = 97 then { p with menu := Menu.Outbound }
      else if choice = 98 then { p with menu := Menu.Inbound }
      else if choice = 99 then { p with menu := Menu.Quit }
      else p
  | Menu.Outbound =>
    { outbound := (second_menu_pass p.outbound inp).1,
      inbound := p.inbound,
      menu := if (second_menu_pass p.outbound inp).2.2 then Menu.First else Menu.Outbound }
  | Menu.Inbound =>
    { outbound := p.outbound,
      inbound := (second_menu_pass p.inbound inp).1,
      menu := if (second_menu_pass p.inbound inp).2.2 then Menu.First else Menu.Inbound }
  | Menu.Quit => p

/-- Function `main`: the state after the given passes. -/
def main (g1 g2 : Flight) (inputs : List MenuInput) : Program :=
  inputs.foldl main_pass (main_start g1 g2)

/-! ## The flights in memory

A transcription of the functions that receive a `Flight *`, in which the two local
flights of `main` are objects in one memory.  The memory is an array of seat records
addressed by integers, a `Flight *` is the address of the first seat record of the
flight, and `f->seat[i]` is the cell at address `f + i`.  A write through a pointer
can land on any cell; that it stays inside the flight pointed to is a property to
prove. -/

/-- The memory: a seat record at every address. -/
structure Memory where
  cell : Int → Seat

/-- The memory after a write of the record `v` at address `a`. -/
def Memory.write (m : Memory) (a : Int) (v : Seat) : Memory :=
  ⟨Function.update m.cell a v⟩

/-- The value of the flight object at address `p`: the 24 cells from `p` on. -/
def flight_at (m : Memory) (p : Int) : Flight :=
  ⟨fun i => m.cell (p + (i.val : Int))⟩

/-- Function `assign_seat` on the flight at address `p`.  The empty seats are
counted by reading the cells `p + 0` to `p + 23`; the seat written is the cell at
address `p + (seatno - 1)`. -/
def assign_seat_at (m : Memory) (p : Int) (inp : AssignInput) : Memory × Outcome :=
  if count_empty (flight_at m p) = 0 then (m, Outcome.NoEmptySeats)
  else
    match inp.seatno with
    | none => (m, Outcome.InvalidInput)
    | some seatno =>
      if seatno = 0 then (m, Outcome.Canceled)
      else if seatno < 1 ∨ seatno > SEATS then (m, Outcome.OutOfRange)
      else
        let a : Int := p + (seatno - 1)
        if (m.cell a).assigned ≠ 0 then (m, Outcome.AlreadyTaken seatno)
        else
          match scanf_s19 inp.first with
          | none => (m, Outcome.InvalidInput)
          | some first =>
            match scanf_s19 inp.last with
            | none => (m, Outcome.InvalidInput)
            | some last =>
              let m1 := m.write a { m.cell a with first := first }
              let m2 := m1.write a { m1.cell a with last := last }
              let m3 := m2.write a { m2.cell a with assigned := 1 }
              (m3, Outcome.Assigned seatno first last)

/-- Function `delete_seat` on the flight at address `p`. -/
def delete_seat_at (m : Memory) (p : Int) (inp : DeleteInput) : Memory × Outcome :=
  match inp.seatno with
  | none => (m, Outcome.InvalidInput)
  | some seatno =>
    if seatno = 0 then (m, Outcome.Canceled)
    else if seatno < 1 ∨ seatno > SEATS then (m, Outcome.OutOfRange)
    else
      let a : Int := p + (seatno - 1)
      if (m.cell a).assigned = 0 then (m, Outcome.AlreadyEmpty seatno)
      else
        match inp.ans with
        | none => (m, Outcome.InvalidInput)
        | some ans =>
          if tolower ans = 121 then
            let m1 := m.write a { m.cell a with assigned := 0 }
            let m2 := m1.write a { m1.cell a with first := [] }
            let m3 := m2.write a { m2.cell a with last := [] }
            (m3, Outcome.Cleared)
          else (m, Outcome.NoChanges)

/-- One pass through the loop of `second_menu(f, title)` with `f` the address `p`.
The three show functions take a `const Flight *` and only read the cells `p + 0` to
`p + 23`. -/
def second_menu_pass_at (m : Memory) (p : Int) (inp : MenuInput) : Memory × Shown × Bool :=
  match inp.choice with
  | none => (m, Shown.InvalidInput, false)
  | some c =>
    let choice := tolower c
    if choice = 97 then
      (m, Shown.NumEmpty (show_num_empty (flight_at m p)).1 (show_num_empty (flight_at m p)).2,
        false)
    else if choice = 98 then (m, Shown.EmptyList (show_empty_list (flight_at m p)), false)
    else if choice = 99 then (m, Shown.AlphaList (show_alpha_list (flight_at m p)), false)
    else if choice = 100 then
      ((assign_seat_at m p inp.assign).1, Shown.Result (assign_seat_at m p inp.assign).2, false)
    else if choice = 101 then
      ((delete_seat_at m p inp.delete).1, Shown.Result (delete_seat_at m p inp.delete).2, false)
    else if choice = 102 then (m, Shown.Return, true)
    else (m, Shown.InvalidChoice, false)

/-- The state of `main` with its flights in memory: the memory, the addresses of
the locals `outbound` and `inbound`, and the active menu. -/
structure Machine where
  mem : Memory
  outbound : Int
  inbound : Int
  menu : Menu

/-- One pass through the active loop of `main`, the second-level menu being given
the address `&outbound` or `&inbound`. -/
def main_pass_at (s : Machine) (inp : MenuInput) : Machine :=
  match s.menu with
  | Menu.First =>
    match inp.choice with
    | none => s
    | some c =>
      let choice := tolower c
      if choice = 97 then { s with menu := Menu.Outbound }
      else if choice = 98 then { s with menu := Menu.Inbound }
      else if choice = 99 then { s with menu := Menu.Quit }
      else s
  | Menu.Outbound =>
    { s with
      mem := (second_menu_pass_at s.mem s.outbound inp).1,
      menu := if (second_menu_pass_at s.mem s.outbound inp).2.2 then Menu.First
        else Menu.Outbound }
  | Menu.Inbound =>
    { s with
      mem := (second_menu_pass_at s.mem s.inbound inp).1,
      menu := if (second_menu_pass_at s.mem s.inbound inp).2.2 then Menu.First
        else Menu.Inbound }
  | Menu.Quit => s

/-- The two flights of a machine state as values, with the active menu. -/
def Machine.program (s : Machine) : Program :=
  { outbound := flight_at s.mem s.outbound,
    inbound := flight_at s.mem s.inbound,
    menu := s.menu }

/-! ## The alphabetical list with every array access checked

A second transcription of `show_alpha_list` in which `idx` holds plain integers and
every access to `idx` and to the seat array fails (`none`) when it is out of
bounds. -/

/-- Read of `idx[p]`, where `idx` holds the entries written so far: fails when `p`
is not below their number. -/
def idx_read (idx : List Nat) (p : Nat) : Option Nat := idx[p]?

/-- Write `idx[p] = v` over an entry already written: fails when `p` is not below
the number of entries. -/
def idx_write (idx : List Nat) (p v : Nat) : Option (List Nat) :=
  if p < idx.length then some (idx.set p v) else none

/-- Write `idx[n++] = v`: fails when the `SEATS` entries of the array are all
written. -/
def idx_push (idx : List Nat) (v : Nat) : Option (List Nat) :=
  if idx.length < SEATS then some (idx ++ [v]) else none

/-- Read of `f->seat[k]`: fails when `k` is not in `0..23`. -/
def seat_read (f : Flight) (k : Nat) : Option Seat :=
  if h : k < SEATS then some (f.seat ⟨k, h⟩) else none

/-- First loop of `show_alpha_list`, checked. -/
def collect_assigned_checked (f : Flight) : Option (List Nat) :=
  (List.range SEATS).foldlM
    (fun idx i => do
      let s ← seat_read f i
      if s.assigned ≠ 0 then idx_push idx i else pure idx) []

/-- Inner loop of the selection sort, checked. -/
def find_minpos_checked (f : Flight) (idx : List Nat) (n i : Nat) : Option Nat :=
  (List.range' (i + 1) (n - (i + 1))).foldlM
    (fun minpos j => do
      let a ← idx_read idx j
      let b ← idx_read idx minpos
      let sa ← seat_read f a
      let sb ← seat_read f b
      pure (if name_cmp sa sb < 0 then j else minpos)) i

/-- Body of the outer loop of the selection sort, checked. -/
def sort_pass_checked (f : Flight) (n : Nat) (idx : List Nat) (i : Nat) :
    Option (List Nat) := do
  let minpos ← find_minpos_checked f idx n i
  if minpos ≠ i then do
    let tmp ← idx_read idx i
    let v ← idx_read idx minpos
    let idx1 ← idx_write idx i v
    idx_write idx1 minpos tmp
  else pure idx

/-- The selection sort on indices, checked. -/
def selection_sort_checked (f : Flight) (idx : List Nat) : Option (List Nat) :=
  (List.range (idx.length - 1)).foldlM (sort_pass_checked f idx.length) idx

/-- Function `show_alpha_list`, checked: the lines printed, or `none` when some
access is out of bounds. -/
def show_alpha_list_checked (f : Flight) : Option (List Row) := do
  let idx ← collect_assigned_checked f
  let n := idx.length
  if n = 0 then pure []
  else do
    let idx ← selection_sort_checked f idx
    (List.range n).mapM (fun i => do
      let k ← idx_read idx i
      let s ← seat_read f k
      pure { id := s.id, first := s.first, last := s.last })

/-! ## Concrete flights used in the examples -/

/-- The flight after `assign(5, "Ann", "Lee")` on a freshly initialised flight. -/
def annLeeFlight : Flight :=
  (assign_seat emptyFlight ⟨some 5, cstr "Ann", cstr "Lee"⟩).1

/-- A full flight: every seat of a freshly initialised flight assigned in turn. -/
def fullFlight : Flight :=
  (List.range 24).foldl
    (fun f i => (assign_seat f ⟨some ((i : Int) + 1), cstr "Ann", cstr "Lee"⟩).1) emptyFlight

/-- A flight in which seats 1 and 2 both hold first name `B`, last name `B`, and
every other seat is empty. -/
def pairFlight : Flight :=
  (assign_seat
    (assign_seat emptyFlight ⟨some 1, cstr "B", cstr "B"⟩).1
    ⟨some 2, cstr "B", cstr "B"⟩).1

/-- The flight `pairFlight` with, in addition, seat 3 holding first name `A`, last
name `A`. -/
def tieFlight : Flight :=
  (assign_seat pairFlight ⟨some 3, cstr "A", cstr "A"⟩).1

/-- A flight in which seat 1 holds first name `bob`, last name `Zeta`, and seat 2
holds first name `Amy`, last name `zeta`. -/
def caseFlight : Flight :=
  (assign_seat
    (assign_seat emptyFlight ⟨some 1, cstr "bob", cstr "Zeta"⟩).1
    ⟨some 2, cstr "Amy", cstr "zeta"⟩).1

/-- A memory holding `emptyFlight` at address 0 and `annLeeFlight` at address 24. -/
def twoFlightsMemory : Memory :=
  ⟨fun a =>
    if h : 0 ≤ a ∧ a < 24 then emptyFlight.seat ⟨a.toNat, by show a.toNat < 24; omega⟩
    else if h2 : 24 ≤ a ∧ a < 48 then
      annLeeFlight.seat ⟨(a - 24).toNat, by show (a - 24).toNat < 24; omega⟩
    else { id := 0, assigned := 0, first := [], last := [] }⟩

/-! ## Vocabulary of the statements -/

/-- The line printed for a seat record: its id and its two names. -/
def Seat.row (a : Seat) : Row := { id := a.id, first := a.first, last := a.last }

/-- The names of a printed line as a seat record, for comparison by `name_cmp`
(which reads only the two names). -/
def Row.seat (r : Row) : Seat := { id := r.id, assigned := 1, first := r.first, last := r.last }

/-- The sort key of the seat at index `k`: last name, then first name, each in the
lexicographic order of the byte values. -/
def seat_key (f : Flight) (k : Fin SEATS) : Lex (CString × CString) :=
  toLex ((f.seat k).last, (f.seat k).first)

/-! ## Auxiliary facts about the loops over the seat array -/

theorem foldl_append_if {α β : Type} (p : α → Prop) [DecidablePred p] (g : α → β)
    (l : List α) (init : List β) :
    l.foldl (fun out i => if p i then out ++ [g i] else out) init
      = init ++ (l.filter (fun i => decide (p i))).map g := by
  induction l generalizing init with
  | nil => simp
  | cons a l ih =>
    by_cases h : p a <;> simp [List.foldl_cons, List.filter_cons, h, ih]

theorem foldl_count_if {α : Type} (p : α → Prop) [DecidablePred p] (l : List α) (c : Nat) :
    l.foldl (fun c i => if p i then c + 1 else c) c
      = c + (l.filter (fun i => decide (p i))).length := by
  induction l generalizing c with
  | nil => simp
  | cons a l ih =>
    by_cases h : p a
    · simp [List.foldl_cons, List.filter_cons, h, ih]; omega
    · simp [List.foldl_cons, List.filter_cons, h, ih]

theorem foldl_update_seat (v : Fin SEATS → Seat) (l : List (Fin SEATS)) (f : Flight)
    (i : Fin SEATS) :
    ((l.foldl (fun g j => (⟨Function.update g.seat j (v j)⟩ : Flight)) f).seat i)
      = if i ∈ l then v i else f.seat i := by
  induction l generalizing f with
  | nil => simp
  | cons a l ih =>
    rw [List.foldl_cons, ih]
    by_cases h1 : i ∈ l
    · simp [h1]
    · by_cases h2 : i = a
      · subst h2; simp [h1]
      · simp [h1, h2, Function.update_noteq h2]

theorem init_flight_seat (f : Flight) (i : Fin SEATS) :
    (init_flight f).seat i = { id := (i.val : Int) + 1, assigned := 0, first := [], last := [] } := by
  unfold init_flight
  rw [foldl_update_seat (fun i => { id := (i.val : Int) + 1, assigned := 0, first := [], last := [] })]
  simp [List.mem_finRange]

theorem Flight.ext_seat {f g : Flight} (h : ∀ i, f.seat i = g.seat i) : f = g := by
  cases f; cases g; congr; exact funext h

theorem count_empty_eq (f : Flight) :
    count_empty f
      = ((List.finRange SEATS).filter (fun i => decide ((f.seat i).assigned = 0))).length := by
  unfold count_empty
  rw [foldl_count_if (fun i => (f.seat i).assigned = 0)]
  simp

theorem show_empty_list_eq (f : Flight) :
    show_empty_list f
      = ((List.finRange SEATS).filter (fun i => decide ((f.seat i).assigned = 0))).map
          (fun i => (f.seat i).id) := by
  unfold show_empty_list
  rw [foldl_append_if (fun i => (f.seat i).assigned = 0) (fun i => (f.seat i).id)]
  simp

theorem collect_assigned_eq (f : Flight) :
    collect_assigned f
      = (List.finRange SEATS).filter (fun i => decide ((f.seat i).assigned ≠ 0)) := by
  unfold collect_assigned
  rw [foldl_append_if (fun i => (f.seat i).assigned ≠ 0) (fun i => i)]
  simp

theorem count_empty_pos_of_empty_seat (f : Flight) (k : Fin SEATS)
    (h : (f.seat k).assigned = 0) : count_empty f ≠ 0 := by
  rw [count_empty_eq]
  intro h0
  have hnil := List.length_eq_zero.mp h0
  have hk : k ∈ (List.finRange SEATS).filter (fun i => decide ((f.seat i).assigned = 0)) := by
    simp [List.mem_filter, List.mem_finRange, h]
  rw [hnil] at hk
  exact absurd hk (List.not_mem_nil k)

theorem seat_index_eq (s : Int) (k : Fin SEATS) (hk : (k.val : Int) = s - 1)
    (h : (s - 1).toNat < SEATS) : (⟨(s - 1).toNat, h⟩ : Fin SEATS) = k := by
  apply Fin.ext
  simp only
  omega

/-! ## What `assign_seat` and `delete_seat` compute on each path -/

theorem c_string_of_no_nul (w : List Nat) (h : ∀ b ∈ w, b ≠ 0) : c_string w = w := by
  unfold c_string
  rw [List.takeWhile_eq_self_iff]
  intro b hb
  simpa using h b hb

theorem c_string_no_nul (w : List Nat) : ∀ b ∈ c_string w, b ≠ 0 := by
  intro b hb
  unfold c_string at hb
  simpa using List.mem_takeWhile_imp hb

theorem c_string_length_le (w : List Nat) : (c_string w).length ≤ w.length := by
  unfold c_string
  exact (List.takeWhile_sublist _).length_le

theorem scanf_s19_fits (w r : CString) (h : scanf_s19 w = some r) :
    r.length < NAMELEN ∧ ∀ b ∈ r, b ≠ 0 := by
  unfold scanf_s19 at h
  split at h
  · cases h
  · cases h
    refine ⟨?_, c_string_no_nul _⟩
    have h1 := c_string_length_le (w.take (NAMELEN - 1))
    have h2 : (w.take (NAMELEN - 1)).length ≤ NAMELEN - 1 := List.length_take_le _ _
    have h3 : NAMELEN = 20 := rfl
    omega

theorem assign_seat_full (f : Flight) (inp : AssignInput) (h : count_empty f = 0) :
    assign_seat f inp = (f, Outcome.NoEmptySeats) := by
  unfold assign_seat
  simp [h]

theorem assign_seat_taken (f : Flight) (s : Int) (k : Fin SEATS) (w1 w2 : CString)
    (hs : 1 ≤ s ∧ s ≤ 24) (hk : (k.val : Int) = s - 1) (hc : count_empty f ≠ 0)
    (ht : (f.seat k).assigned ≠ 0) :
    assign_seat f ⟨some s, w1, w2⟩ = (f, Outcome.AlreadyTaken s) := by
  have h0 : s ≠ 0 := by omega
  have hr : ¬ (s < 1 ∨ s > (SEATS : Int)) := by simp only [SEATS]; omega
  unfold assign_seat
  simp only [hc, h0, hr, if_false, dite_false]
  rw [seat_index_eq s k hk]
  simp [ht]

theorem assign_seat_success (f : Flight) (s : Int) (k : Fin SEATS) (w1 w2 : CString)
    (hk : (k.val : Int) = s - 1) (he : (f.seat k).assigned = 0)
    (h1 : w1 ≠ []) (h2 : w2 ≠ []) :
    assign_seat f ⟨some s, w1, w2⟩
      = (⟨Function.update f.seat k
            { id := (f.seat k).id, assigned := 1,
              first := c_string (w1.take 19), last := c_string (w2.take 19) }⟩,
         Outcome.Assigned s (c_string (w1.take 19)) (c_string (w2.take 19))) := by
  have hc := count_empty_pos_of_empty_seat f k he
  have hk2 : k.val < 24 := k.isLt
  have h0 : s ≠ 0 := by omega
  have hr : ¬ (s < 1 ∨ s > (SEATS : Int)) := by simp only [SEATS]; omega
  unfold assign_seat
  simp only [hc, h0, hr, if_false, dite_false]
  rw [seat_index_eq s k hk]
  simp [he, scanf_s19, h1, h2]

theorem delete_seat_empty (f : Flight) (s : Int) (k : Fin SEATS) (ans : Option Nat)
    (hk : (k.val : Int) = s - 1) (he : (f.seat k).assigned = 0) :
    delete_seat f ⟨some s, ans⟩ = (f, Outcome.AlreadyEmpty s) := by
  have hk2 : k.val < 24 := k.isLt
  have h0 : s ≠ 0 := by omega
  have hr : ¬ (s < 1 ∨ s > (SEATS : Int)) := by simp only [SEATS]; omega
  unfold delete_seat
  simp only [h0, hr, if_false, dite_false]
  rw [seat_index_eq s k hk]
  simp [he]

theorem delete_seat_answer (f : Flight) (s : Int) (k : Fin SEATS) (ans : Nat)
    (hk : (k.val : Int) = s - 1) (ht : (f.seat k).assigned ≠ 0) :
    delete_seat f ⟨some s, some ans⟩
      = if tolower ans = 121 then
          (⟨Function.update f.seat k
              { id := (f.seat k).id, assigned := 0, first := [], last := [] }⟩,
           Outcome.Cleared)
        else (f, Outcome.NoChanges) := by
  have hk2 : k.val < 24 := k.isLt
  have h0 : s ≠ 0 := by omega
  have hr : ¬ (s < 1 ∨ s > (SEATS : Int)) := by simp only [SEATS]; omega
  unfold delete_seat
  simp only [h0, hr, if_false, dite_false]
  rw [seat_index_eq s k hk]
  simp [ht]

theorem tolower_eq_y (c : Nat) : tolower c = 121 ↔ c = 121 ∨ c = 89 := by
  unfold tolower
  split <;> omega

theorem assign_seat_cases (f : Flight) (inp : AssignInput) :
    (assign_seat f inp).1 = f ∨
      ∃ (k : Fin SEATS) (w1 w2 : CString), (f.seat k).assigned = 0 ∧
        (assign_seat f inp).1 = ⟨Function.update f.seat k
          { id := (f.seat k).id, assigned := 1, first := w1, last := w2 }⟩ := by
  unfold assign_seat
  by_cases hc : count_empty f = 0
  · simp only [hc, if_true]; exact Or.inl trivial
  cases hs : inp.seatno with
  | none => simp only [hc, if_false]; exact Or.inl trivial
  | some seatno =>
    by_cases h0 : seatno = 0
    · simp only [hc, h0, if_false, if_true]; exact Or.inl trivial
    by_cases hr : seatno < 1 ∨ seatno > (SEATS : Int)
    · simp only [hc, h0, hr, if_false, dite_true]; exact Or.inl trivial
    have hlt : (seatno - 1).toNat < SEATS := by simp only [SEATS] at hr ⊢; omega
    by_cases ht : (f.seat ⟨(seatno - 1).toNat, hlt⟩).assigned = 0
    · cases h1 : scanf_s19 inp.first with
      | none =>
        simp only [hc, h0, hr, ht, h1, if_false, dite_false, ne_eq, not_true_eq_false]
        exact Or.inl trivial
      | some first =>
        cases h2 : scanf_s19 inp.last with
        | none =>
          simp only [hc, h0, hr, ht, h1, h2, if_false, dite_false, ne_eq, not_true_eq_false]
          exact Or.inl trivial
        | some last =>
          right
          refine ⟨⟨(seatno - 1).toNat, hlt⟩, first, last, ht, ?_⟩
          simp only [hc, h0, hr, ht, h1, h2, if_false, dite_false, ne_eq, not_true_eq_false]
          simp
    · simp only [hc, h0, hr, ht, if_false, dite_false, ne_eq, not_false_eq_true, if_true]
      exact Or.inl trivial

theorem delete_seat_cases (f : Flight) (inp : DeleteInput) :
    (delete_seat f inp).1 = f ∨
      ∃ k : Fin SEATS, (delete_seat f inp).1 = ⟨Function.update f.seat k
          { id := (f.seat k).id, assigned := 0, first := [], last := [] }⟩ := by
  unfold delete_seat
  cases hs : inp.seatno with
  | none => exact Or.inl rfl
  | some seatno =>
    by_cases h0 : seatno = 0
    · simp only [h0, if_true]; exact Or.inl trivial
    by_cases hr : seatno < 1 ∨ seatno > (SEATS : Int)
    · simp only [h0, hr, if_false, dite_true]; exact Or.inl trivial
    have hlt : (seatno - 1).toNat < SEATS := by simp only [SEATS] at hr ⊢; omega
    by_cases ht : (f.seat ⟨(seatno - 1).toNat, hlt⟩).assigned = 0
    · simp only [h0, hr, ht, if_false, dite_false, if_true]; exact Or.inl trivial
    cases ha : inp.ans with
    | none => simp only [h0, hr, ht, if_false, dite_false]; exact Or.inl trivial
    | some ans =>
      by_cases hy : tolower ans = 121
      · right
        refine ⟨⟨(seatno - 1).toNat, hlt⟩, ?_⟩
        simp only [h0, hr, ht, hy, if_false, dite_false, if_true]
        simp
      · simp only [h0, hr, ht, hy, if_false, dite_false]; exact Or.inl trivial

/-- In a reachable flight the seat at index `i` has id `i + 1`, the flag `assigned`
is `0` or `1`, and an empty seat has empty names. -/
theorem reachable_inv {f : Flight} (h : Reachable f) (i : Fin SEATS) :
    (f.seat i).id = (i.val : Int) + 1 ∧
      ((f.seat i).assigned = 0 ∨ (f.seat i).assigned = 1) ∧
      ((f.seat i).assigned = 0 → (f.seat i).first = [] ∧ (f.seat i).last = []) := by
  induction h generalizing i with
  | init g => simp [init_flight_seat]
  | @assign g inp _ ih =>
    rcases assign_seat_cases g inp with h | ⟨k, w1, w2, _, h⟩
    · rw [h]; exact ih i
    · rw [h]
      by_cases hik : i = k
      · subst hik; simpa using (ih i).1
      · simpa [Function.update_noteq hik] using ih i
  | @delete g inp _ ih =>
    rcases delete_seat_cases g inp with h | ⟨k, h⟩
    · rw [h]; exact ih i
    · rw [h]
      by_cases hik : i = k
      · subst hik; simpa using (ih i).1
      · simpa [Function.update_noteq hik] using ih i

/-! ## The comparison functions -/

theorem cons_lt_cons_iff (a b : Nat) (s t : CString) :
    a :: s < b :: t ↔ a < b ∨ (a = b ∧ s < t) := by
  constructor
  · intro h
    cases h with
    | cons h => exact Or.inr ⟨rfl, h⟩
    | rel h => exact Or.inl h
  · rintro (h | ⟨rfl, h⟩)
    · exact List.Lex.rel h
    · exact List.Lex.cons h

theorem strcmp_neg_iff (s t : CString) : strcmp s t < 0 ↔ s < t := by
  induction s generalizing t with
  | nil =>
    cases t with
    | nil => simp [strcmp]
    | cons b t => simp [strcmp, List.nil_lt_cons]
  | cons a s ih =>
    cases t with
    | nil => simp [strcmp]
    | cons b t =>
      rw [cons_lt_cons_iff, strcmp]
      by_cases h1 : a < b
      · simp [h1]
      · by_cases h2 : b < a
        · simp [h1, h2]; omega
        · have : a = b := by omega
          simp [h1, h2, ih, this]

theorem strcmp_eq_zero_iff (s t : CString) : strcmp s t = 0 ↔ s = t := by
  induction s generalizing t with
  | nil =>
    cases t with
    | nil => simp [strcmp]
    | cons b t => simp [strcmp]
  | cons a s ih =>
    cases t with
    | nil => simp [strcmp]
    | cons b t =>
      rw [strcmp]
      by_cases h1 : a < b
      · simp [h1]; omega
      · by_cases h2 : b < a
        · simp [h1, h2]; omega
        · have : a = b := by omega
          simp [h1, h2, ih, this]

theorem name_cmp_neg_iff (a b : Seat) :
    name_cmp a b < 0 ↔ a.last < b.last ∨ (a.last = b.last ∧ a.first < b.first) := by
  unfold name_cmp
  by_cases h : strcmp a.last b.last = 0
  · have he := (strcmp_eq_zero_iff _ _).mp h
    simp only [h, if_true, strcmp_neg_iff]
    simp [he]
  · have hne : a.last ≠ b.last := fun e => h ((strcmp_eq_zero_iff _ _).mpr e)
    simp only [h, if_false, strcmp_neg_iff]
    simp [hne]

theorem name_cmp_neg_iff_key (f : Flight) (x y : Fin SEATS) :
    name_cmp (f.seat x) (f.seat y) < 0 ↔ seat_key f x < seat_key f y := by
  rw [name_cmp_neg_iff]
  unfold seat_key
  exact (Prod.Lex.lt_iff ((f.seat x).last, (f.seat x).first)
    ((f.seat y).last, (f.seat y).first)).symm

/-! ## The selection sort on indices -/

theorem cons_set_perm {α : Type} (l : List α) (a d : α) (m : Nat) (hm : m < l.length) :
    (l.getD m d :: l.set m a).Perm (a :: l) := by
  induction l generalizing m with
  | nil => simp at hm
  | cons b t ih =>
    cases m with
    | zero => simpa using List.Perm.swap a b t
    | succ m =>
      have hm2 : m < t.length := by simpa using hm
      have h1 : (t.getD m d :: b :: t.set m a).Perm (b :: t.getD m d :: t.set m a) :=
        List.Perm.swap _ _ _
      have h2 : (b :: t.getD m d :: t.set m a).Perm (b :: a :: t) :=
        List.Perm.cons b (ih m hm2)
      have h3 : (b :: a :: t).Perm (a :: b :: t) := List.Perm.swap _ _ _
      simpa using (h1.trans h2).trans h3

theorem swap_perm {α : Type} (l : List α) (d : α) (i m : Nat)
    (hi : i < l.length) (hm : m < l.length) :
    ((l.set i (l.getD m d)).set m (l.getD i d)).Perm l := by
  induction l generalizing i m with
  | nil => simp at hi
  | cons b t ih =>
    cases i with
    | zero =>
      cases m with
      | zero => simp
      | succ m =>
        have hm2 : m < t.length := by simpa using hm
        simpa using cons_set_perm t b d m hm2
    | succ i =>
      have hi2 : i < t.length := by simpa using hi
      cases m with
      | zero => simpa using cons_set_perm t b d i hi2
      | succ m =>
        have hm2 : m < t.length := by simpa using hm
        simpa using ih i m hi2 hm2

theorem swap_getD {α : Type} (l : List α) (d : α) (i m x : Nat)
    (hi : i < l.length) (hm : m < l.length) :
    ((l.set i (l.getD m d)).set m (l.getD i d)).getD x d
      = if x = m then l.getD i d else if x = i then l.getD m d else l.getD x d := by
  simp only [List.getD_eq_getElem?_getD, List.getElem?_set, List.length_set]
  by_cases h1 : x = m
  · subst h1; simp [hm]
  · by_cases h2 : x = i
    · subst h2; simp [hi, h1, Ne.symm h1]
    · simp [h1, h2, Ne.symm h1, Ne.symm h2]

/-- The inner loop run over `j = i + 1, ..., i + c` leaves in `minpos` the first
position of a least key among the positions `i, ..., i + c`. -/
theorem minpos_fold_spec (f : Flight) (idx : List (Fin SEATS)) (i c : Nat) :
    ∀ m : Nat,
      m = (List.range' (i + 1) c).foldl
        (fun minpos j =>
          if name_cmp (f.seat (idx.getD j 0)) (f.seat (idx.getD minpos 0)) < 0 then j
          else minpos) i →
      i ≤ m ∧ m < i + 1 + c ∧
      (∀ j, i ≤ j → j < i + 1 + c → seat_key f (idx.getD m 0) ≤ seat_key f (idx.getD j 0)) ∧
      (∀ j, i ≤ j → j < m → seat_key f (idx.getD m 0) < seat_key f (idx.getD j 0)) := by
  induction c with
  | zero =>
    intro m hm
    simp only [List.range'_zero, List.foldl_nil] at hm
    subst hm
    refine ⟨le_refl _, by omega, ?_, ?_⟩
    · intro j h1 h2
      have : j = m := by omega
      rw [this]
    · intro j h1 h2
      omega
  | succ c ih =>
    intro m hm
    rw [List.range'_concat, List.foldl_append] at hm
    simp only [List.foldl_cons, List.foldl_nil, one_mul] at hm
    obtain ⟨h1, h2, h3, h4⟩ := ih _ rfl
    generalize (List.range' (i + 1) c).foldl
        (fun minpos j =>
          if name_cmp (f.seat (idx.getD j 0)) (f.seat (idx.getD minpos 0)) < 0 then j
          else minpos) i = m0 at hm h1 h2 h3 h4
    by_cases hlt : name_cmp (f.seat (idx.getD (i + 1 + c) 0)) (f.seat (idx.getD m0 0)) < 0
    · rw [if_pos hlt] at hm
      have hk := (name_cmp_neg_iff_key f _ _).mp hlt
      subst hm
      refine ⟨by omega, by omega, ?_, ?_⟩
      · intro j hj1 hj2
        by_cases hj : j = i + 1 + c
        · rw [hj]
        · exact le_of_lt (lt_of_lt_of_le hk (h3 j hj1 (by omega)))
      · intro j hj1 hj2
        exact lt_of_lt_of_le hk (h3 j hj1 hj2)
    · rw [if_neg hlt] at hm
      have hk : seat_key f (idx.getD m0 0) ≤ seat_key f (idx.getD (i + 1 + c) 0) :=
        not_lt.mp (fun h => hlt ((name_cmp_neg_iff_key f _ _).mpr h))
      subst hm
      refine ⟨h1, by omega, ?_, h4⟩
      intro j hj1 hj2
      by_cases hj : j = i + 1 + c
      · rw [hj]; exact hk
      · exact h3 j hj1 (by omega)

theorem find_minpos_spec (f : Flight) (idx : List (Fin SEATS)) (n i : Nat) (hi : i < n) :
    i ≤ find_minpos f idx n i ∧ find_minpos f idx n i < n ∧
    (∀ j, i ≤ j → j < n →
      seat_key f (idx.getD (find_minpos f idx n i) 0) ≤ seat_key f (idx.getD j 0)) ∧
    (∀ j, i ≤ j → j < find_minpos f idx n i →
      seat_key f (idx.getD (find_minpos f idx n i) 0) < seat_key f (idx.getD j 0)) := by
  have h := minpos_fold_spec f idx i (n - (i + 1)) (find_minpos f idx n i) rfl
  have e : i + 1 + (n - (i + 1)) = n := by omega
  rw [e] at h
  exact h

/-- One pass of the outer loop keeps the entries of `idx` and extends the sorted
prefix by one position. -/
theorem sort_pass_spec (f : Flight) (idx : List (Fin SEATS)) (n i : Nat)
    (hn : idx.length = n) (hi : i < n)
    (hsorted : ∀ p q, p < i → p < q → q < n →
      seat_key f (idx.getD p 0) ≤ seat_key f (idx.getD q 0)) :
    (sort_pass f n idx i).length = n ∧ (sort_pass f n idx i).Perm idx ∧
    ∀ p q, p < i + 1 → p < q → q < n →
      seat_key f ((sort_pass f n idx i).getD p 0) ≤ seat_key f ((sort_pass f n idx i).getD q 0) := by
  obtain ⟨h1, h2, h3, _⟩ := find_minpos_spec f idx n i hi
  unfold sort_pass
  generalize find_minpos f idx n i = m at h1 h2 h3
  by_cases hm : m = i
  · subst hm
    simp only [ne_eq, not_true_eq_false, if_false]
    refine ⟨hn, List.Perm.refl _, ?_⟩
    intro p q hp hpq hq
    by_cases hpm : p = m
    · rw [hpm]; exact h3 q (by omega) hq
    · exact hsorted p q (by omega) hpq hq
  · simp only [ne_eq, hm, not_false_eq_true, if_true]
    have hi2 : i < idx.length := by omega
    have hm2 : m < idx.length := by omega
    refine ⟨by simp [hn], swap_perm idx 0 i m hi2 hm2, ?_⟩
    intro p q hp hpq hq
    rw [swap_getD idx 0 i m p hi2 hm2, swap_getD idx 0 i m q hi2 hm2]
    by_cases hpi : p = i
    · subst hpi
      rw [if_neg (Ne.symm hm), if_pos rfl]
      by_cases hqm : q = m
      · rw [if_pos hqm]; exact h3 p (le_refl _) hi
      · rw [if_neg hqm, if_neg (by omega)]; exact h3 q (by omega) hq
    · have hp2 : p < i := by omega
      rw [if_neg (by omega), if_neg hpi]
      by_cases hqm : q = m
      · rw [if_pos hqm]; exact hsorted p i hp2 hp2 hi
      · rw [if_neg hqm]
        by_cases hqi : q = i
        · rw [if_pos hqi]; exact hsorted p m hp2 (by omega) h2
        · rw [if_neg hqi]; exact hsorted p q hp2 hpq hq

/-- After `c` passes of the outer loop the entries are those of `idx` and the first
`c` positions hold, in order, `c` least keys. -/
theorem sort_fold_spec (f : Flight) (idx : List (Fin SEATS)) (c : Nat)
    (hc : c ≤ idx.length - 1) :
    ((List.range c).foldl (sort_pass f idx.length) idx).length = idx.length ∧
    ((List.range c).foldl (sort_pass f idx.length) idx).Perm idx ∧
    ∀ p q, p < c → p < q → q < idx.length →
      seat_key f (((List.range c).foldl (sort_pass f idx.length) idx).getD p 0)
        ≤ seat_key f (((List.range c).foldl (sort_pass f idx.length) idx).getD q 0) := by
  induction c with
  | zero =>
    refine ⟨rfl, List.Perm.refl _, ?_⟩
    intro p q hp
    omega
  | succ c ih =>
    obtain ⟨h1, h2, h3⟩ := ih (by omega)
    rw [List.range_succ, List.foldl_append]
    simp only [List.foldl_cons, List.foldl_nil]
    obtain ⟨g1, g2, g3⟩ := sort_pass_spec f _ idx.length c h1 (by omega) h3
    exact ⟨g1, g2.trans h2, g3⟩

theorem selection_sort_length (f : Flight) (idx : List (Fin SEATS)) :
    (selection_sort f idx).length = idx.length :=
  (sort_fold_spec f idx (idx.length - 1) (le_refl _)).1

theorem selection_sort_perm (f : Flight) (idx : List (Fin SEATS)) :
    (selection_sort f idx).Perm idx :=
  (sort_fold_spec f idx (idx.length - 1) (le_refl _)).2.1

theorem selection_sort_sorted (f : Flight) (idx : List (Fin SEATS)) :
    List.Pairwise (fun x y => seat_key f x ≤ seat_key f y) (selection_sort f idx) := by
  rw [List.pairwise_iff_getElem]
  intro p q hp hq hpq
  have hlen := selection_sort_length f idx
  have h := (sort_fold_spec f idx (idx.length - 1) (le_refl _)).2.2 p q (by omega) hpq (by omega)
  rw [← List.getD_eq_getElem _ 0 hp, ← List.getD_eq_getElem _ 0 hq]
  exact h

/-- When the entries are already in non-decreasing key order no swap is made. -/
theorem sort_pass_of_sorted (f : Flight) (idx : List (Fin SEATS)) (n i : Nat)
    (hn : idx.length = n) (hi : i < n)
    (hs : List.Pairwise (fun x y => seat_key f x ≤ seat_key f y) idx) :
    sort_pass f n idx i = idx := by
  obtain ⟨h1, h2, _, h4⟩ := find_minpos_spec f idx n i hi
  unfold sort_pass
  generalize find_minpos f idx n i = m at h1 h2 h4
  by_cases hm : m = i
  · simp [hm]
  · exfalso
    have hlt := h4 i (le_refl _) (by omega)
    have hle : seat_key f (idx.getD i 0) ≤ seat_key f (idx.getD m 0) := by
      rw [List.getD_eq_getElem _ 0 (by omega : i < idx.length),
        List.getD_eq_getElem _ 0 (by omega : m < idx.length)]
      exact (List.pairwise_iff_getElem.mp hs) i m (by omega) (by omega) (by omega)
    exact absurd hlt (not_lt.mpr hle)

theorem selection_sort_of_sorted (f : Flight) (idx : List (Fin SEATS))
    (hs : List.Pairwise (fun x y => seat_key f x ≤ seat_key f y) idx) :
    selection_sort f idx = idx := by
  unfold selection_sort
  have key : ∀ c, c ≤ idx.length - 1 →
      (List.range c).foldl (sort_pass f idx.length) idx = idx := by
    intro c
    induction c with
    | zero => intro _; rfl
    | succ c ih =>
      intro hc
      rw [List.range_succ, List.foldl_append, ih (by omega)]
      simp only [List.foldl_cons, List.foldl_nil]
      exact sort_pass_of_sorted f idx idx.length c rfl (by omega) hs
  exact key _ (le_refl _)

theorem map_getD_range {α β : Type} (l : List α) (d : α) (g : α → β) :
    (List.range l.length).map (fun i => g (l.getD i d)) = l.map g := by
  apply List.ext_getElem
  · simp
  · intro i h1 h2
    have hi : i < l.length := by simpa using h2
    simp [List.getElem?_eq_getElem hi]

theorem show_alpha_list_eq_map (f : Flight) :
    show_alpha_list f = (alpha_order f).map (fun k => (f.seat k).row) := by
  unfold show_alpha_list alpha_order
  by_cases h0 : (collect_assigned f).length = 0
  · have hnil : collect_assigned f = [] := List.length_eq_zero.mp h0
    simp [hnil, selection_sort]
  · simp only [h0, if_false]
    rw [← selection_sort_length f (collect_assigned f)]
    exact map_getD_range (selection_sort f (collect_assigned f)) 0 (fun k => (f.seat k).row)

theorem alpha_order_count (f : Flight) (k : Fin SEATS) :
    (alpha_order f).count k = if (f.seat k).assigned ≠ 0 then 1 else 0 := by
  unfold alpha_order
  rw [(selection_sort_perm f (collect_assigned f)).count_eq k, collect_assigned_eq]
  have hnd : ((List.finRange SEATS).filter
      (fun i => decide ((f.seat i).assigned ≠ 0))).Nodup :=
    List.Nodup.filter _ (List.nodup_finRange SEATS)
  by_cases h : (f.seat k).assigned ≠ 0
  · rw [if_pos h]
    exact List.count_eq_one_of_mem hnd (by simp [List.mem_filter, List.mem_finRange, h])
  · rw [if_neg h]
    exact List.count_eq_zero_of_not_mem (by simp [List.mem_filter, h])

theorem name_cmp_eq_zero_iff (a b : Seat) :
    name_cmp a b = 0 ↔ a.last = b.last ∧ a.first = b.first := by
  unfold name_cmp
  by_cases h : strcmp a.last b.last = 0
  · have he := (strcmp_eq_zero_iff _ _).mp h
    simp only [h, if_true, strcmp_eq_zero_iff]
    simp [he]
  · have hne : a.last ≠ b.last := fun e => h ((strcmp_eq_zero_iff _ _).mpr e)
    simp only [h, if_false]
    simp [hne]

theorem name_cmp_nonpos_iff (a b : Seat) :
    name_cmp a b ≤ 0 ↔
      (toLex (a.last, a.first) : Lex (CString × CString)) ≤ toLex (b.last, b.first) := by
  rw [le_iff_lt_or_eq, le_iff_lt_or_eq, name_cmp_neg_iff, name_cmp_eq_zero_iff,
    Prod.Lex.lt_iff]
  simp

theorem show_alpha_list_pairwise (f : Flight) :
    List.Pairwise (fun a b : Row => name_cmp a.seat b.seat ≤ 0) (show_alpha_list f) := by
  rw [show_alpha_list_eq_map, List.pairwise_map]
  refine List.Pairwise.imp ?_ (selection_sort_sorted f (collect_assigned f))
  intro x y h
  exact (name_cmp_nonpos_iff _ _).mpr h

theorem name_cmp_nonpos_explicit (a b : Seat) (h : name_cmp a b ≤ 0) :
    a.last < b.last ∨ (a.last = b.last ∧ (a.first < b.first ∨ a.first = b.first)) := by
  rcases lt_or_eq_of_le h with h1 | h1
  · rcases (name_cmp_neg_iff a b).mp h1 with h2 | ⟨h2, h3⟩
    · exact Or.inl h2
    · exact Or.inr ⟨h2, Or.inl h3⟩
  · have h2 := (name_cmp_eq_zero_iff a b).mp h1
    exact Or.inr ⟨h2.1, Or.inr h2.2⟩

theorem name_cmp_antisymm (a b : Seat) (h1 : name_cmp a b ≤ 0) (h2 : name_cmp b a ≤ 0) :
    a.last = b.last ∧ a.first = b.first := by
  have k1 := (name_cmp_nonpos_iff a b).mp h1
  have k2 := (name_cmp_nonpos_iff b a).mp h2
  have k3 := le_antisymm k1 k2
  have k4 : (a.last, a.first) = (b.last, b.first) := toLex_inj.mp k3
  exact ⟨congrArg Prod.fst k4, congrArg Prod.snd k4⟩

theorem name_cmp_of_names_eq (a b : Seat) (h1 : a.last = b.last) (h2 : a.first = b.first) :
    name_cmp a b ≤ 0 :=
  le_of_eq ((name_cmp_eq_zero_iff a b).mpr ⟨h1, h2⟩)

theorem name_cmp_trans (a b c : Seat) (h1 : name_cmp a b ≤ 0) (h2 : name_cmp b c ≤ 0) :
    name_cmp a c ≤ 0 :=
  (name_cmp_nonpos_iff a c).mpr
    (le_trans ((name_cmp_nonpos_iff a b).mp h1) ((name_cmp_nonpos_iff b c).mp h2))

theorem pairwise_getElem?_le {α : Type} {R : α → α → Prop} {l : List α}
    (h : List.Pairwise R l) (hrefl : ∀ a, R a a) (p q : Nat) (a b : α) (hpq : p ≤ q)
    (ha : l[p]? = some a) (hb : l[q]? = some b) : R a b := by
  obtain ⟨hp, rfl⟩ := List.getElem?_eq_some.mp ha
  obtain ⟨hq, rfl⟩ := List.getElem?_eq_some.mp hb
  rcases Nat.lt_or_eq_of_le hpq with h1 | h1
  · exact (List.pairwise_iff_getElem.mp h) p q hp hq h1
  · subst h1; exact hrefl _

/-! ## Counting and listing the empty seats -/

theorem filter_length_add (p : Fin SEATS → Prop) [DecidablePred p] :
    ((List.finRange SEATS).filter (fun i => decide (p i))).length
      + ((List.finRange SEATS).filter (fun i => decide (¬ p i))).length = 24 := by
  have h := List.length_eq_countP_add_countP (fun i => decide (p i)) (List.finRange SEATS)
  rw [List.countP_eq_length_filter, List.countP_eq_length_filter, List.length_finRange] at h
  simp only [decide_eq_true_eq] at h
  have hS : SEATS = 24 := rfl
  omega

theorem show_alpha_list_length (f : Flight) :
    (show_alpha_list f).length
      = ((List.finRange SEATS).filter (fun i => decide ((f.seat i).assigned ≠ 0))).length := by
  rw [show_alpha_list_eq_map, List.length_map, alpha_order, selection_sort_length,
    collect_assigned_eq]

theorem finRange_ids :
    (List.finRange SEATS).map (fun i => (i.val : Int) + 1)
      = [1, 2, 3, 4, 5, 6, 7, 8, 9, 10, 11, 12, 13, 14, 15, 16, 17, 18, 19, 20, 21, 22, 23, 24] := by
  decide

theorem show_empty_list_reachable {f : Flight} (h : Reachable f) :
    show_empty_list f
      = ((List.finRange SEATS).filter (fun i => decide ((f.seat i).assigned = 0))).map
          (fun i => (i.val : Int) + 1) := by
  rw [show_empty_list_eq]
  apply List.map_congr_left
  intro i _
  exact (reachable_inv h i).1

theorem show_alpha_list_ids_reachable {f : Flight} (h : Reachable f) :
    (show_alpha_list f).map (fun r => r.id)
      = (alpha_order f).map (fun i => (i.val : Int) + 1) := by
  rw [show_alpha_list_eq_map, List.map_map]
  apply List.map_congr_left
  intro i _
  exact (reachable_inv h i).1

theorem strcmp_append_left (p s t : CString) :
    strcmp (p ++ s) (p ++ t) = strcmp s t := by
  induction p with
  | nil => rfl
  | cons a p ih => simp [strcmp, ih]

/-! ## Outcomes and the count of empty seats -/

theorem assign_seat_result (f : Flight) (inp : AssignInput) :
    (∃ o : Outcome, assign_seat f inp = (f, o) ∧ ∀ s a b, o ≠ Outcome.Assigned s a b) ∨
      ∃ (k : Fin SEATS) (w1 w2 : CString) (s : Int), (f.seat k).assigned = 0 ∧
        assign_seat f inp = (⟨Function.update f.seat k
          { id := (f.seat k).id, assigned := 1, first := w1, last := w2 }⟩,
          Outcome.Assigned s w1 w2) := by
  obtain ⟨sn, v1, v2⟩ := inp
  by_cases hc : count_empty f = 0
  · exact Or.inl ⟨Outcome.NoEmptySeats, assign_seat_full f _ hc, fun _ _ _ h => by cases h⟩
  cases sn with
  | none =>
    refine Or.inl ⟨Outcome.InvalidInput, ?_, fun _ _ _ h => by cases h⟩
    unfold assign_seat
    simp only [hc, if_false]
  | some seatno =>
    by_cases h0 : seatno = 0
    · refine Or.inl ⟨Outcome.Canceled, ?_, fun _ _ _ h => by cases h⟩
      unfold assign_seat
      simp only [hc, h0, if_false, if_true]
    by_cases hr : seatno < 1 ∨ seatno > (SEATS : Int)
    · refine Or.inl ⟨Outcome.OutOfRange, ?_, fun _ _ _ h => by cases h⟩
      unfold assign_seat
      simp only [hc, h0, hr, if_false, dite_true]
    have hlt : (seatno - 1).toNat < SEATS := by simp only [SEATS] at hr ⊢; omega
    by_cases ht : (f.seat ⟨(seatno - 1).toNat, hlt⟩).assigned = 0
    · cases h1 : scanf_s19 v1 with
      | none =>
        refine Or.inl ⟨Outcome.InvalidInput, ?_, fun _ _ _ h => by cases h⟩
        unfold assign_seat
        simp only [hc, h0, hr, ht, h1, if_false, dite_false, ne_eq, not_true_eq_false]
      | some first =>
        cases h2 : scanf_s19 v2 with
        | none =>
          refine Or.inl ⟨Outcome.InvalidInput, ?_, fun _ _ _ h => by cases h⟩
          unfold assign_seat
          simp only [hc, h0, hr, ht, h1, h2, if_false, dite_false, ne_eq, not_true_eq_false]
        | some last =>
          refine Or.inr ⟨⟨(seatno - 1).toNat, hlt⟩, first, last, seatno, ht, ?_⟩
          unfold assign_seat
          simp only [hc, h0, hr, ht, h1, h2, if_false, dite_false, ne_eq, not_true_eq_false]
          simp
    · refine Or.inl ⟨Outcome.AlreadyTaken seatno, ?_, fun _ _ _ h => by cases h⟩
      unfold assign_seat
      simp only [hc, h0, hr, ht, if_false, dite_false, ne_eq, not_false_eq_true, if_true]

theorem delete_seat_result (f : Flight) (inp : DeleteInput) :
    (∃ o : Outcome, delete_seat f inp = (f, o) ∧ o ≠ Outcome.Cleared) ∨
      ∃ k : Fin SEATS, (f.seat k).assigned ≠ 0 ∧
        delete_seat f inp = (⟨Function.update f.seat k
          { id := (f.seat k).id, assigned := 0, first := [], last := [] }⟩,
          Outcome.Cleared) := by
  obtain ⟨sn, a⟩ := inp
  cases sn with
  | none => exact Or.inl ⟨Outcome.InvalidInput, rfl, fun h => by cases h⟩
  | some seatno =>
    by_cases h0 : seatno = 0
    · refine Or.inl ⟨Outcome.Canceled, ?_, fun h => by cases h⟩
      unfold delete_seat
      simp only [h0, if_true]
    by_cases hr : seatno < 1 ∨ seatno > (SEATS : Int)
    · refine Or.inl ⟨Outcome.OutOfRange, ?_, fun h => by cases h⟩
      unfold delete_seat
      simp only [h0, hr, if_false, dite_true]
    have hlt : (seatno - 1).toNat < SEATS := by simp only [SEATS] at hr ⊢; omega
    by_cases ht : (f.seat ⟨(seatno - 1).toNat, hlt⟩).assigned = 0
    · refine Or.inl ⟨Outcome.AlreadyEmpty seatno, ?_, fun h => by cases h⟩
      unfold delete_seat
      simp only [h0, hr, ht, if_false, dite_false, if_true]
    cases a with
    | none =>
      refine Or.inl ⟨Outcome.InvalidInput, ?_, fun h => by cases h⟩
      unfold delete_seat
      simp only [h0, hr, ht, if_false, dite_false]
    | some ans =>
      by_cases hy : tolower ans = 121
      · refine Or.inr ⟨⟨(seatno - 1).toNat, hlt⟩, ht, ?_⟩
        unfold delete_seat
        simp only [h0, hr, ht, hy, if_false, dite_false, if_true]
        simp
      · refine Or.inl ⟨Outcome.NoChanges, ?_, fun h => by cases h⟩
        unfold delete_seat
        simp only [h0, hr, ht, hy, if_false, dite_false]

theorem filter_length_flip {α : Type} [DecidableEq α] (p q : α → Bool) (k : α)
    (hp : p k = true) (hq : q k = false) (hpq : ∀ i, i ≠ k → p i = q i)
    (l : List α) (hnd : l.Nodup) (hk : k ∈ l) :
    (l.filter q).length + 1 = (l.filter p).length := by
  induction l with
  | nil => simp at hk
  | cons a l ih =>
    have hnd2 := List.nodup_cons.mp hnd
    by_cases ha : a = k
    · subst ha
      have hsame : l.filter q = l.filter p := by
        apply List.filter_congr
        intro i hi
        have : i ≠ a := fun e => hnd2.1 (e ▸ hi)
        exact (hpq i this).symm
      simp [List.filter_cons, hp, hq, hsame]
    · have hk2 : k ∈ l := by
        rcases List.mem_cons.mp hk with h | h
        · exact absurd h.symm ha
        · exact h
      have ih2 := ih hnd2.2 hk2
      have hpa := hpq a ha
      cases hqa : q a
      · rw [hqa] at hpa
        simp only [List.filter_cons, hpa, hqa]
        exact ih2
      · rw [hqa] at hpa
        simp only [List.filter_cons, hpa, hqa, if_true, List.length_cons]
        omega

theorem count_empty_update_taken (f : Flight) (k : Fin SEATS) (v : Seat)
    (h1 : (f.seat k).assigned = 0) (h2 : v.assigned ≠ 0) :
    count_empty ⟨Function.update f.seat k v⟩ + 1 = count_empty f := by
  rw [count_empty_eq, count_empty_eq]
  apply filter_length_flip _ _ k _ _ _ _ (List.nodup_finRange SEATS) (List.mem_finRange k)
  · simp [h1]
  · simp [h2]
  · intro i hi
    simp [Function.update_noteq hi]

theorem count_empty_update_cleared (f : Flight) (k : Fin SEATS) (v : Seat)
    (h1 : (f.seat k).assigned ≠ 0) (h2 : v.assigned = 0) :
    count_empty ⟨Function.update f.seat k v⟩ = count_empty f + 1 := by
  rw [count_empty_eq, count_empty_eq]
  symm
  apply filter_length_flip _ _ k _ _ _ _ (List.nodup_finRange SEATS) (List.mem_finRange k)
  · simp [h2]
  · simp [h1]
  · intro i hi
    simp [Function.update_noteq hi]

/-! ## The menus -/

theorem second_menu_pass_reachable (f : Flight) (inp : MenuInput) (h : Reachable f) :
    Reachable (second_menu_pass f inp).1 := by
  unfold second_menu_pass
  cases inp.choice with
  | none => exact h
  | some c =>
    simp only
    split_ifs
    · exact h
    · exact h
    · exact h
    · exact Reachable.assign _ h
    · exact Reachable.delete _ h
    · exact h
    · exact h

theorem main_pass_reachable (p : Program) (inp : MenuInput)
    (h1 : Reachable p.outbound) (h2 : Reachable p.inbound) :
    Reachable (main_pass p inp).outbound ∧ Reachable (main_pass p inp).inbound := by
  unfold main_pass
  cases hm : p.menu with
  | First =>
    cases inp.choice with
    | none => exact ⟨h1, h2⟩
    | some c =>
      simp only
      split_ifs <;> exact ⟨h1, h2⟩
  | Outbound => exact ⟨second_menu_pass_reachable _ _ h1, h2⟩
  | Inbound => exact ⟨h1, second_menu_pass_reachable _ _ h2⟩
  | Quit => exact ⟨h1, h2⟩

/-- Every flight state met by `main` is reachable in the sense of `Reachable`. -/
theorem main_reachable (g1 g2 : Flight) (inputs : List MenuInput) :
    Reachable (main g1 g2 inputs).outbound ∧ Reachable (main g1 g2 inputs).inbound := by
  unfold main
  have key : ∀ (l : List MenuInput) (p : Program),
      Reachable p.outbound → Reachable p.inbound →
      Reachable (l.foldl main_pass p).outbound ∧ Reachable (l.foldl main_pass p).inbound := by
    intro l
    induction l with
    | nil => intro p h1 h2; exact ⟨h1, h2⟩
    | cons a l ih =>
      intro p h1 h2
      rw [List.foldl_cons]
      exact ih _ (main_pass_reachable p a h1 h2).1 (main_pass_reachable p a h1 h2).2
  exact key inputs _ (Reachable.init g1) (Reachable.init g2)

theorem main_pass_outbound_menu (p : Program) (inp : MenuInput) (h : p.menu = Menu.Outbound) :
    (main_pass p inp).inbound = p.inbound ∧
    (main_pass p inp).outbound = (second_menu_pass p.outbound inp).1 := by
  unfold main_pass
  rw [h]
  exact ⟨rfl, rfl⟩

theorem main_pass_inbound_menu (p : Program) (inp : MenuInput) (h : p.menu = Menu.Inbound) :
    (main_pass p inp).outbound = p.outbound ∧
    (main_pass p inp).inbound = (second_menu_pass p.inbound inp).1 := by
  unfold main_pass
  rw [h]
  exact ⟨rfl, rfl⟩

theorem main_pass_no_flight_menu (p : Program) (inp : MenuInput)
    (h : p.menu = Menu.First ∨ p.menu = Menu.Quit) :
    (main_pass p inp).outbound = p.outbound ∧ (main_pass p inp).inbound = p.inbound := by
  unfold main_pass
  rcases h with h | h
  · rw [h]
    cases inp.choice with
    | none => exact ⟨rfl, rfl⟩
    | some c =>
      simp only
      split_ifs <;> exact ⟨rfl, rfl⟩
  · rw [h]
    exact ⟨rfl, rfl⟩

/-! ## The checked transcription of `show_alpha_list` never fails -/

theorem idx_read_map (idx : List (Fin SEATS)) (j : Nat) (hj : j < idx.length) :
    idx_read (idx.map Fin.val) j = some (idx.getD j 0).val := by
  unfold idx_read
  rw [List.getElem?_map, List.getD_eq_getElem?_getD, List.getElem?_eq_getElem hj]
  rfl

theorem seat_read_val (f : Flight) (x : Fin SEATS) : seat_read f x.val = some (f.seat x) := by
  unfold seat_read
  rw [dif_pos x.isLt]

theorem mapM_eq_some_map {α β : Type} (l : List α) (g : α → Option β) (h : α → β)
    (hg : ∀ x ∈ l, g x = some (h x)) : l.mapM g = some (l.map h) := by
  induction l with
  | nil => rw [List.mapM_nil]; rfl
  | cons a l ih =>
    rw [List.mapM_cons, hg a (List.mem_cons_self _ _),
      ih (fun x hx => hg x (List.mem_cons_of_mem _ hx))]
    rfl

theorem collect_checked_fold (f : Flight) (l acc : List (Fin SEATS))
    (h : acc.length + l.length ≤ SEATS) :
    (l.map Fin.val).foldlM
        (fun idx i => do
          let s ← seat_read f i
          if s.assigned ≠ 0 then idx_push idx i else pure idx) (acc.map Fin.val)
      = some ((l.foldl
          (fun idx i => if (f.seat i).assigned ≠ 0 then idx ++ [i] else idx) acc).map Fin.val) := by
  induction l generalizing acc with
  | nil => rfl
  | cons a l ih =>
    rw [List.map_cons, List.foldlM_cons, List.foldl_cons, seat_read_val]
    simp only [Option.bind_eq_bind, Option.some_bind]
    have hlen : acc.length + 1 + l.length ≤ SEATS := by
      simp only [List.length_cons] at h; omega
    by_cases ha : (f.seat a).assigned ≠ 0
    · rw [if_pos ha, if_pos ha]
      have hpush : idx_push (acc.map Fin.val) a.val = some ((acc ++ [a]).map Fin.val) := by
        unfold idx_push
        rw [if_pos (by rw [List.length_map]; omega)]
        simp
      rw [hpush]
      simp only [Option.some_bind]
      exact ih (acc ++ [a]) (by simpa using hlen)
    · rw [if_neg ha, if_neg ha]
      exact ih acc (by omega)

theorem collect_assigned_checked_eq (f : Flight) :
    collect_assigned_checked f = some ((collect_assigned f).map Fin.val) := by
  unfold collect_assigned_checked collect_assigned
  rw [← List.map_coe_finRange]
  exact collect_checked_fold f (List.finRange SEATS) [] (by simp)

theorem find_minpos_checked_fold (f : Flight) (idx : List (Fin SEATS)) (i c : Nat)
    (hc : i + 1 + c ≤ idx.length) :
    (List.range' (i + 1) c).foldlM
        (fun minpos j => do
          let a ← idx_read (idx.map Fin.val) j
          let b ← idx_read (idx.map Fin.val) minpos
          let sa ← seat_read f a
          let sb ← seat_read f b
          pure (if name_cmp sa sb < 0 then j else minpos)) i
      = some ((List.range' (i + 1) c).foldl
          (fun minpos j =>
            if name_cmp (f.seat (idx.getD j 0)) (f.seat (idx.getD minpos 0)) < 0 then j
            else minpos) i) := by
  induction c with
  | zero => rfl
  | succ c ih =>
    rw [List.range'_concat, List.foldlM_append, List.foldl_append, ih (by omega)]
    obtain ⟨_, h2, _, _⟩ := minpos_fold_spec f idx i c _ rfl
    generalize (List.range' (i + 1) c).foldl
        (fun minpos j =>
          if name_cmp (f.seat (idx.getD j 0)) (f.seat (idx.getD minpos 0)) < 0 then j
          else minpos) i = m0 at h2
    simp only [Option.bind_eq_bind, Option.some_bind, one_mul, List.foldlM_cons,
      List.foldlM_nil, List.foldl_cons, List.foldl_nil]
    rw [idx_read_map idx (i + 1 + c) (by omega), idx_read_map idx m0 (by omega)]
    simp only [Option.some_bind, seat_read_val]
    rfl

theorem find_minpos_checked_eq (f : Flight) (idx : List (Fin SEATS)) (n i : Nat)
    (hn : idx.length = n) (hi : i < n) :
    find_minpos_checked f (idx.map Fin.val) n i = some (find_minpos f idx n i) := by
  unfold find_minpos_checked find_minpos
  exact find_minpos_checked_fold f idx i (n - (i + 1)) (by omega)

theorem sort_pass_length (f : Flight) (idx : List (Fin SEATS)) (n i : Nat) :
    (sort_pass f n idx i).length = idx.length := by
  unfold sort_pass
  simp only
  split_ifs <;> simp

theorem sort_pass_checked_eq (f : Flight) (idx : List (Fin SEATS)) (n i : Nat)
    (hn : idx.length = n) (hi : i < n) :
    sort_pass_checked f n (idx.map Fin.val) i = some ((sort_pass f n idx i).map Fin.val) := by
  obtain ⟨_, h2, _, _⟩ := find_minpos_spec f idx n i hi
  unfold sort_pass_checked sort_pass
  rw [find_minpos_checked_eq f idx n i hn hi]
  generalize find_minpos f idx n i = m at h2
  simp only [Option.bind_eq_bind, Option.some_bind]
  by_cases hm : m = i
  · simp [hm]
  · simp only [ne_eq, hm, not_false_eq_true, if_true]
    rw [idx_read_map idx i (by omega), idx_read_map idx m (by omega)]
    simp only [Option.some_bind]
    unfold idx_write
    rw [if_pos (by rw [List.length_map]; omega)]
    simp only [Option.some_bind]
    rw [if_pos (by rw [List.length_set, List.length_map]; omega)]
    simp [List.map_set]

theorem sort_fold_length (f : Flight) (idx : List (Fin SEATS)) (c : Nat) :
    ((List.range c).foldl (sort_pass f idx.length) idx).length = idx.length := by
  induction c with
  | zero => rfl
  | succ c ih =>
    rw [List.range_succ, List.foldl_append]
    simp only [List.foldl_cons, List.foldl_nil]
    rw [sort_pass_length, ih]

theorem sort_fold_checked (f : Flight) (idx : List (Fin SEATS)) (c : Nat)
    (hc : c ≤ idx.length - 1) :
    (List.range c).foldlM (sort_pass_checked f idx.length) (idx.map Fin.val)
      = some (((List.range c).foldl (sort_pass f idx.length) idx).map Fin.val) := by
  induction c with
  | zero => rfl
  | succ c ih =>
    rw [List.range_succ, List.foldlM_append, List.foldl_append, ih (by omega)]
    simp only [Option.bind_eq_bind, Option.some_bind, List.foldlM_cons, List.foldlM_nil,
      List.foldl_cons, List.foldl_nil]
    rw [sort_pass_checked_eq f _ idx.length c (sort_fold_length f idx c) (by omega)]
    rfl

theorem selection_sort_checked_eq (f : Flight) (idx : List (Fin SEATS)) :
    selection_sort_checked f (idx.map Fin.val) = some ((selection_sort f idx).map Fin.val) := by
  unfold selection_sort_checked selection_sort
  rw [List.length_map]
  exact sort_fold_checked f idx (idx.length - 1) (le_refl _)

theorem show_alpha_list_checked_eq (f : Flight) :
    show_alpha_list_checked f = some (show_alpha_list f) := by
  unfold show_alpha_list_checked show_alpha_list
  rw [collect_assigned_checked_eq]
  simp only [Option.bind_eq_bind, Option.some_bind, List.length_map]
  by_cases h0 : (collect_assigned f).length = 0
  · simp only [h0, if_true]
    rfl
  · simp only [h0, if_false]
    rw [selection_sort_checked_eq]
    simp only [Option.some_bind]
    apply mapM_eq_some_map
    intro i hi
    have hi2 : i < (selection_sort f (collect_assigned f)).length := by
      rw [selection_sort_length]; exact List.mem_range.mp hi
    rw [idx_read_map _ i hi2]
    simp only [Option.bind_eq_bind, Option.some_bind, seat_read_val]
    rfl

theorem collect_assigned_length_le (f : Flight) : (collect_assigned f).length ≤ 24 := by
  rw [collect_assigned_eq]
  have h := List.length_filter_le (fun i => decide ((f.seat i).assigned ≠ 0))
    (List.finRange SEATS)
  rw [List.length_finRange] at h
  exact h

/-! ## Writes through a flight pointer -/

theorem write_cell_other (m : Memory) (a b : Int) (v : Seat) (h : b ≠ a) :
    (m.write a v).cell b = m.cell b := by
  unfold Memory.write
  exact Function.update_noteq h v m.cell

theorem flight_at_write (m : Memory) (p : Int) (k : Fin SEATS) (v : Seat) :
    flight_at (m.write (p + (k.val : Int)) v) p
      = ⟨Function.update (flight_at m p).seat k v⟩ := by
  apply Flight.ext_seat
  intro i
  unfold flight_at Memory.write
  by_cases h : i = k
  · subst h; simp
  · have h2 : p + (i.val : Int) ≠ p + (k.val : Int) := by
      intro e
      apply h
      apply Fin.ext
      omega
    simp [Function.update_noteq h2, Function.update_noteq h]

theorem flight_at_seat_index (m : Memory) (p seatno : Int) (h1 : 1 ≤ seatno)
    (hlt : (seatno - 1).toNat < SEATS) :
    (flight_at m p).seat ⟨(seatno - 1).toNat, hlt⟩ = m.cell (p + (seatno - 1)) := by
  unfold flight_at
  simp only
  congr 1
  omega

/-- On each path `assign_seat_at` either leaves the memory as it is or writes one
cell `p + k` with `k` in `0..23`, and in both cases the flight at `p` and the
outcome are those of `assign_seat`; the names written fit a name field. -/
theorem assign_seat_at_result (m : Memory) (p : Int) (inp : AssignInput) :
    (assign_seat_at m p inp = (m, (assign_seat (flight_at m p) inp).2) ∧
      (assign_seat (flight_at m p) inp).1 = flight_at m p) ∨
    ∃ (k : Fin SEATS) (v : Seat),
      v.first.length < NAMELEN ∧ v.last.length < NAMELEN ∧
      assign_seat_at m p inp
        = (m.write (p + (k.val : Int)) v, (assign_seat (flight_at m p) inp).2) ∧
      (assign_seat (flight_at m p) inp).1 = ⟨Function.update (flight_at m p).seat k v⟩ := by
  obtain ⟨sn, v1, v2⟩ := inp
  by_cases hc : count_empty (flight_at m p) = 0
  · left
    rw [assign_seat_full _ _ hc]
    refine ⟨?_, rfl⟩
    unfold assign_seat_at
    simp only [hc, if_true]
  cases sn with
  | none =>
    have e1 : assign_seat_at m p ⟨none, v1, v2⟩ = (m, Outcome.InvalidInput) := by
      unfold assign_seat_at
      simp only [hc, if_false]
    have e2 : assign_seat (flight_at m p) ⟨none, v1, v2⟩
        = (flight_at m p, Outcome.InvalidInput) := by
      unfold assign_seat
      simp only [hc, if_false]
    left
    rw [e1, e2]
    exact ⟨rfl, rfl⟩
  | some seatno =>
    by_cases h0 : seatno = 0
    · have e1 : assign_seat_at m p ⟨some seatno, v1, v2⟩ = (m, Outcome.Canceled) := by
        unfold assign_seat_at
        simp only [hc, h0, if_false, if_true]
      have e2 : assign_seat (flight_at m p) ⟨some seatno, v1, v2⟩
          = (flight_at m p, Outcome.Canceled) := by
        unfold assign_seat
        simp only [hc, h0, if_false, if_true]
      left
      rw [e1, e2]
      exact ⟨rfl, rfl⟩
    by_cases hr : seatno < 1 ∨ seatno > (SEATS : Int)
    · have e1 : assign_seat_at m p ⟨some seatno, v1, v2⟩ = (m, Outcome.OutOfRange) := by
        unfold assign_seat_at
        simp only [hc, h0, hr, if_false, if_true]
      have e2 : assign_seat (flight_at m p) ⟨some seatno, v1, v2⟩
          = (flight_at m p, Outcome.OutOfRange) := by
        unfold assign_seat
        simp only [hc, h0, hr, if_false, dite_true]
      left
      rw [e1, e2]
      exact ⟨rfl, rfl⟩
    have h1 : 1 ≤ seatno := by simp only [SEATS] at hr; omega
    have hlt : (seatno - 1).toNat < SEATS := by simp only [SEATS] at hr ⊢; omega
    have hcell := flight_at_seat_index m p seatno h1 hlt
    by_cases ht : (m.cell (p + (seatno - 1))).assigned = 0
    · have ht2 : ((flight_at m p).seat ⟨(seatno - 1).toNat, hlt⟩).assigned = 0 := by
        rw [hcell]; exact ht
      cases hw1 : scanf_s19 v1 with
      | none =>
        have e1 : assign_seat_at m p ⟨some seatno, v1, v2⟩ = (m, Outcome.InvalidInput) := by
          unfold assign_seat_at
          simp only [hc, h0, hr, ht, hw1, if_false, ne_eq, not_true_eq_false]
        have e2 : assign_seat (flight_at m p) ⟨some seatno, v1, v2⟩
            = (flight_at m p, Outcome.InvalidInput) := by
          unfold assign_seat
          simp only [hc, h0, hr, ht2, hw1, if_false, dite_false, ne_eq, not_true_eq_false]
        left
        rw [e1, e2]
        exact ⟨rfl, rfl⟩
      | some first =>
        cases hw2 : scanf_s19 v2 with
        | none =>
          have e1 : assign_seat_at m p ⟨some seatno, v1, v2⟩ = (m, Outcome.InvalidInput) := by
            unfold assign_seat_at
            simp only [hc, h0, hr, ht, hw1, hw2, if_false, ne_eq, not_true_eq_false]
          have e2 : assign_seat (flight_at m p) ⟨some seatno, v1, v2⟩
              = (flight_at m p, Outcome.InvalidInput) := by
            unfold assign_seat
            simp only [hc, h0, hr, ht2, hw1, hw2, if_false, dite_false, ne_eq,
              not_true_eq_false]
          left
          rw [e1, e2]
          exact ⟨rfl, rfl⟩
        | some last =>
          have haddr : p + (seatno - 1) = p + (((seatno - 1).toNat : Nat) : Int) := by omega
          have e1 : assign_seat_at m p ⟨some seatno, v1, v2⟩
              = (m.write (p + (((seatno - 1).toNat : Nat) : Int))
                  { id := (m.cell (p + (seatno - 1))).id, assigned := 1,
                    first := first, last := last },
                 Outcome.Assigned seatno first last) := by
            unfold assign_seat_at
            simp only [hc, h0, hr, ht, hw1, hw2, if_false, ne_eq, not_true_eq_false]
            rw [← haddr]
            simp [Memory.write]
          have e2 : assign_seat (flight_at m p) ⟨some seatno, v1, v2⟩
              = (⟨Function.update (flight_at m p).seat ⟨(seatno - 1).toNat, hlt⟩
                  { id := (m.cell (p + (seatno - 1))).id, assigned := 1,
                    first := first, last := last }⟩,
                 Outcome.Assigned seatno first last) := by
            unfold assign_seat
            simp only [hc, h0, hr, ht2, hw1, hw2, if_false, dite_false, ne_eq,
              not_true_eq_false]
            rw [hcell]
            simp
          right
          refine ⟨⟨(seatno - 1).toNat, hlt⟩,
            { id := (m.cell (p + (seatno - 1))).id, assigned := 1,
              first := first, last := last },
            (scanf_s19_fits v1 first hw1).1, (scanf_s19_fits v2 last hw2).1, ?_, ?_⟩
          · rw [e1, e2]
          · rw [e2]
    · have ht2 : ((flight_at m p).seat ⟨(seatno - 1).toNat, hlt⟩).assigned ≠ 0 := by
        rw [hcell]; exact ht
      have e1 : assign_seat_at m p ⟨some seatno, v1, v2⟩
          = (m, Outcome.AlreadyTaken seatno) := by
        unfold assign_seat_at
        simp only [hc, h0, hr, ht, if_false, ne_eq, not_false_eq_true, if_true]
      have e2 : assign_seat (flight_at m p) ⟨some seatno, v1, v2⟩
          = (flight_at m p, Outcome.AlreadyTaken seatno) := by
        unfold assign_seat
        simp only [hc, h0, hr, ht2, if_false, dite_false, ne_eq, not_false_eq_true, if_true]
      left
      rw [e1, e2]
      exact ⟨rfl, rfl⟩

/-- On each path `delete_seat_at` either leaves the memory as it is or writes one
cell `p + k` with `k` in `0..23`, and in both cases the flight at `p` and the
outcome are those of `delete_seat`. -/
theorem delete_seat_at_result (m : Memory) (p : Int) (inp : DeleteInput) :
    (delete_seat_at m p inp = (m, (delete_seat (flight_at m p) inp).2) ∧
      (delete_seat (flight_at m p) inp).1 = flight_at m p) ∨
    ∃ (k : Fin SEATS) (v : Seat),
      v.first.length < NAMELEN ∧ v.last.length < NAMELEN ∧
      delete_seat_at m p inp
        = (m.write (p + (k.val : Int)) v, (delete_seat (flight_at m p) inp).2) ∧
      (delete_seat (flight_at m p) inp).1 = ⟨Function.update (flight_at m p).seat k v⟩ := by
  obtain ⟨sn, a⟩ := inp
  cases sn with
  | none => exact Or.inl ⟨rfl, rfl⟩
  | some seatno =>
    by_cases h0 : seatno = 0
    · have e1 : delete_seat_at m p ⟨some seatno, a⟩ = (m, Outcome.Canceled) := by
        unfold delete_seat_at
        simp only [h0, if_true]
      have e2 : delete_seat (flight_at m p) ⟨some seatno, a⟩
          = (flight_at m p, Outcome.Canceled) := by
        unfold delete_seat
        simp only [h0, if_true]
      left
      rw [e1, e2]
      exact ⟨rfl, rfl⟩
    by_cases hr : seatno < 1 ∨ seatno > (SEATS : Int)
    · have e1 : delete_seat_at m p ⟨some seatno, a⟩ = (m, Outcome.OutOfRange) := by
        unfold delete_seat_at
        simp only [h0, hr, if_false, if_true]
      have e2 : delete_seat (flight_at m p) ⟨some seatno, a⟩
          = (flight_at m p, Outcome.OutOfRange) := by
        unfold delete_seat
        simp only [h0, hr, if_false, dite_true]
      left
      rw [e1, e2]
      exact ⟨rfl, rfl⟩
    have h1 : 1 ≤ seatno := by simp only [SEATS] at hr; omega
    have hlt : (seatno - 1).toNat < SEATS := by simp only [SEATS] at hr ⊢; omega
    have hcell := flight_at_seat_index m p seatno h1 hlt
    by_cases ht : (m.cell (p + (seatno - 1))).assigned = 0
    · have ht2 : ((flight_at m p).seat ⟨(seatno - 1).toNat, hlt⟩).assigned = 0 := by
        rw [hcell]; exact ht
      have e1 : delete_seat_at m p ⟨some seatno, a⟩ = (m, Outcome.AlreadyEmpty seatno) := by
        unfold delete_seat_at
        simp only [h0, hr, ht, if_false, if_true]
      have e2 : delete_seat (flight_at m p) ⟨some seatno, a⟩
          = (flight_at m p, Outcome.AlreadyEmpty seatno) := by
        unfold delete_seat
        simp only [h0, hr, ht2, if_false, dite_false, if_true]
      left
      rw [e1, e2]
      exact ⟨rfl, rfl⟩
    have ht2 : ¬ ((flight_at m p).seat ⟨(seatno - 1).toNat, hlt⟩).assigned = 0 := by
      rw [hcell]; exact ht
    cases a with
    | none =>
      have e1 : delete_seat_at m p ⟨some seatno, none⟩ = (m, Outcome.InvalidInput) := by
        unfold delete_seat_at
        simp only [h0, hr, ht, if_false]
      have e2 : delete_seat (flight_at m p) ⟨some seatno, none⟩
          = (flight_at m p, Outcome.InvalidInput) := by
        unfold delete_seat
        simp only [h0, hr, ht2, if_false, dite_false]
      left
      rw [e1, e2]
      exact ⟨rfl, rfl⟩
    | some ans =>
      by_cases hy : tolower ans = 121
      · have haddr : p + (seatno - 1) = p + (((seatno - 1).toNat : Nat) : Int) := by omega
        have e1 : delete_seat_at m p ⟨some seatno, some ans⟩
            = (m.write (p + (((seatno - 1).toNat : Nat) : Int))
                { id := (m.cell (p + (seatno - 1))).id, assigned := 0,
                  first := [], last := [] },
               Outcome.Cleared) := by
          unfold delete_seat_at
          simp only [h0, hr, ht, hy, if_false, if_true]
          rw [← haddr]
          simp [Memory.write]
        have e2 : delete_seat (flight_at m p) ⟨some seatno, some ans⟩
            = (⟨Function.update (flight_at m p).seat ⟨(seatno - 1).toNat, hlt⟩
                { id := (m.cell (p + (seatno - 1))).id, assigned := 0,
                  first := [], last := [] }⟩,
               Outcome.Cleared) := by
          unfold delete_seat
          simp only [h0, hr, ht2, hy, if_false, dite_false, if_true]
          rw [hcell]
          simp
        right
        refine ⟨⟨(seatno - 1).toNat, hlt⟩,
          { id := (m.cell (p + (seatno - 1))).id, assigned := 0, first := [], last := [] },
          by simp, by simp, ?_, ?_⟩
        · rw [e1, e2]
        · rw [e2]
      · have e1 : delete_seat_at m p ⟨some seatno, some ans⟩ = (m, Outcome.NoChanges) := by
          unfold delete_seat_at
          simp only [h0, hr, ht, hy, if_false]
        have e2 : delete_seat (flight_at m p) ⟨some seatno, some ans⟩
            = (flight_at m p, Outcome.NoChanges) := by
          unfold delete_seat
          simp only [h0, hr, ht2, hy, if_false, dite_false]
        left
        rw [e1, e2]
        exact ⟨rfl, rfl⟩

/-- A memory `m2` obtained from `m` by at most one write, at a cell `p + k` with `k`
in `0..23`, of a record whose names fit a name field. -/
theorem one_write_confined (m : Memory) (p : Int) (k : Fin SEATS) (v : Seat)
    (h1 : v.first.length < NAMELEN) (h2 : v.last.length < NAMELEN) :
    (∀ a : Int, (a < p ∨ p + 24 ≤ a) → (m.write (p + (k.val : Int)) v).cell a = m.cell a) ∧
    (∀ a : Int, (m.write (p + (k.val : Int)) v).cell a ≠ m.cell a →
      ((m.write (p + (k.val : Int)) v).cell a).first.length < NAMELEN ∧
      ((m.write (p + (k.val : Int)) v).cell a).last.length < NAMELEN) := by
  have hk : k.val < 24 := k.isLt
  constructor
  · intro a ha
    exact write_cell_other m _ a v (by omega)
  · intro a ha
    by_cases e : a = p + (k.val : Int)
    · subst e
      simp only [Memory.write, Function.update_same]
      exact ⟨h1, h2⟩
    · exact absurd (write_cell_other m _ a v e) ha

theorem assign_seat_at_confined (m : Memory) (p : Int) (inp : AssignInput) :
    (∀ a : Int, (a < p ∨ p + 24 ≤ a) → (assign_seat_at m p inp).1.cell a = m.cell a) ∧
    (∀ a : Int, (assign_seat_at m p inp).1.cell a ≠ m.cell a →
      ((assign_seat_at m p inp).1.cell a).first.length < NAMELEN ∧
      ((assign_seat_at m p inp).1.cell a).last.length < NAMELEN) ∧
    flight_at (assign_seat_at m p inp).1 p = (assign_seat (flight_at m p) inp).1 ∧
    (assign_seat_at m p inp).2 = (assign_seat (flight_at m p) inp).2 := by
  rcases assign_seat_at_result m p inp with ⟨e1, e2⟩ | ⟨k, v, h1, h2, e1, e2⟩
  · rw [e1, e2]
    exact ⟨fun _ _ => rfl, fun _ h => absurd rfl h, rfl, rfl⟩
  · rw [e1, e2]
    exact ⟨(one_write_confined m p k v h1 h2).1, (one_write_confined m p k v h1 h2).2,
      flight_at_write m p k v, rfl⟩

theorem delete_seat_at_confined (m : Memory) (p : Int) (inp : DeleteInput) :
    (∀ a : Int, (a < p ∨ p + 24 ≤ a) → (delete_seat_at m p inp).1.cell a = m.cell a) ∧
    (∀ a : Int, (delete_seat_at m p inp).1.cell a ≠ m.cell a →
      ((delete_seat_at m p inp).1.cell a).first.length < NAMELEN ∧
      ((delete_seat_at m p inp).1.cell a).last.length < NAMELEN) ∧
    flight_at (delete_seat_at m p inp).1 p = (delete_seat (flight_at m p) inp).1 ∧
    (delete_seat_at m p inp).2 = (delete_seat (flight_at m p) inp).2 := by
  rcases delete_seat_at_result m p inp with ⟨e1, e2⟩ | ⟨k, v, h1, h2, e1, e2⟩
  · rw [e1, e2]
    exact ⟨fun _ _ => rfl, fun _ h => absurd rfl h, rfl, rfl⟩
  · rw [e1, e2]
    exact ⟨(one_write_confined m p k v h1 h2).1, (one_write_confined m p k v h1 h2).2,
      flight_at_write m p k v, rfl⟩

/-- A pass of `second_menu` through the pointer `p` writes no cell outside the 24
cells of the flight at `p`, writes only names that fit a name field, and acts on the
flight at `p` as `second_menu_pass` does on its value. -/
theorem second_menu_pass_at_confined (m : Memory) (p : Int) (inp : MenuInput) :
    (∀ a : Int, (a < p ∨ p + 24 ≤ a) → (second_menu_pass_at m p inp).1.cell a = m.cell a) ∧
    (∀ a : Int, (second_menu_pass_at m p inp).1.cell a ≠ m.cell a →
      ((second_menu_pass_at m p inp).1.cell a).first.length < NAMELEN ∧
      ((second_menu_pass_at m p inp).1.cell a).last.length < NAMELEN) ∧
    flight_at (second_menu_pass_at m p inp).1 p = (second_menu_pass (flight_at m p) inp).1 ∧
    (second_menu_pass_at m p inp).2 = (second_menu_pass (flight_at m p) inp).2 := by
  have hsame : ∀ (x : Shown) (b : Bool),
      (∀ a : Int, (a < p ∨ p + 24 ≤ a) → ((m, x, b) : Memory × Shown × Bool).1.cell a = m.cell a) ∧
      (∀ a : Int, ((m, x, b) : Memory × Shown × Bool).1.cell a ≠ m.cell a →
        (((m, x, b) : Memory × Shown × Bool).1.cell a).first.length < NAMELEN ∧
        (((m, x, b) : Memory × Shown × Bool).1.cell a).last.length < NAMELEN) :=
    fun _ _ => ⟨fun _ _ => rfl, fun _ h => absurd rfl h⟩
  unfold second_menu_pass_at second_menu_pass
  cases inp.choice with
  | none => exact ⟨(hsame _ _).1, (hsame _ _).2, rfl, rfl⟩
  | some c =>
    simp only
    split_ifs
    · exact ⟨(hsame _ _).1, (hsame _ _).2, rfl, rfl⟩
    · exact ⟨(hsame _ _).1, (hsame _ _).2, rfl, rfl⟩
    · exact ⟨(hsame _ _).1, (hsame _ _).2, rfl, rfl⟩
    · obtain ⟨h1, h2, h3, h4⟩ := assign_seat_at_confined m p inp.assign
      exact ⟨h1, h2, h3, by rw [h4]⟩
    · obtain ⟨h1, h2, h3, h4⟩ := delete_seat_at_confined m p inp.delete
      exact ⟨h1, h2, h3, by rw [h4]⟩
    · exact ⟨(hsame _ _).1, (hsame _ _).2, rfl, rfl⟩
    · exact ⟨(hsame _ _).1, (hsame _ _).2, rfl, rfl⟩

theorem flight_at_of_frame (m m2 : Memory) (p q : Int)
    (hsep : p + 24 ≤ q ∨ q + 24 ≤ p)
    (h : ∀ a : Int, (a < p ∨ p + 24 ≤ a) → m2.cell a = m.cell a) :
    flight_at m2 q = flight_at m q := by
  apply Flight.ext_seat
  intro i
  have hi : i.val < 24 := i.isLt
  unfold flight_at
  exact h _ (by omega)

/-- With the two flights at addresses 24 cells apart or more, a pass of the machine
is a pass of `main_pass` on the values of the two flights. -/
theorem main_pass_at_program (s : Machine) (inp : MenuInput)
    (hsep : s.outbound + 24 ≤ s.inbound ∨ s.inbound + 24 ≤ s.outbound) :
    (main_pass_at s inp).program = main_pass s.program inp := by
  unfold main_pass_at main_pass Machine.program
  cases hm : s.menu with
  | First =>
    simp only
    cases inp.choice with
    | none => simp only [hm]
    | some c =>
      simp only
      split_ifs <;> simp only [hm]
  | Outbound =>
    obtain ⟨h1, _, h3, h4⟩ := second_menu_pass_at_confined s.mem s.outbound inp
    simp only
    rw [h3, h4, flight_at_of_frame s.mem _ s.outbound s.inbound hsep h1]
  | Inbound =>
    obtain ⟨h1, _, h3, h4⟩ := second_menu_pass_at_confined s.mem s.inbound inp
    simp only
    rw [h3, h4, flight_at_of_frame s.mem _ s.inbound s.outbound hsep.symm h1]
  | Quit => simp only [hm]

theorem main_pass_at_pointers (s : Machine) (inp : MenuInput) :
    (main_pass_at s inp).outbound = s.outbound ∧ (main_pass_at s inp).inbound = s.inbound := by
  unfold main_pass_at
  cases s.menu with
  | First =>
    simp only
    cases inp.choice with
    | none => exact ⟨rfl, rfl⟩
    | some c =>
      simp only
      split_ifs <;> exact ⟨rfl, rfl⟩
  | Outbound => exact ⟨rfl, rfl⟩
  | Inbound => exact ⟨rfl, rfl⟩
  | Quit => exact ⟨rfl, rfl⟩

theorem main_pass_at_outbound_menu (s : Machine) (inp : MenuInput)
    (h : s.menu = Menu.Outbound) :
    (main_pass_at s inp).mem = (second_menu_pass_at s.mem s.outbound inp).1 := by
  unfold main_pass_at
  rw [h]

theorem main_pass_at_inbound_menu (s : Machine) (inp : MenuInput)
    (h : s.menu = Menu.Inbound) :
    (main_pass_at s inp).mem = (second_menu_pass_at s.mem s.inbound inp).1 := by
  unfold main_pass_at
  rw [h]

theorem main_pass_at_no_flight_menu (s : Machine) (inp : MenuInput)
    (h : s.menu = Menu.First ∨ s.menu = Menu.Quit) :
    (main_pass_at s inp).mem = s.mem := by
  unfold main_pass_at
  rcases h with h | h
  · rw [h]
    simp only
    cases inp.choice with
    | none => rfl
    | some c =>
      simp only
      split_ifs <;> rfl
  · rw [h]

/-! ## The claims -/

/-- C1: the lines printed by `show_alpha_list` are in non-decreasing order under
`name_cmp`: for consecutive lines `a` then `b` (and indeed for any earlier line `a`
and later line `b`), `name_cmp` of `a` and `b` is not positive, that is either the
last name of `a` is ordinally smaller than that of `b`, or the last names are equal
and the first name of `a` is ordinally smaller than or equal to that of `b`. -/
theorem show_alpha_list_sorted (f : Flight) :
    List.Chain' (fun a b : Row =>
        name_cmp a.seat b.seat ≤ 0 ∧
        (a.last < b.last ∨ (a.last = b.last ∧ (a.first < b.first ∨ a.first = b.first))))
      (show_alpha_list f) ∧
    List.Pairwise (fun a b : Row =>
        name_cmp a.seat b.seat ≤ 0 ∧
        (a.last < b.last ∨ (a.last = b.last ∧ (a.first < b.first ∨ a.first = b.first))))
      (show_alpha_list f) := by
  have hp : List.Pairwise (fun a b : Row =>
        name_cmp a.seat b.seat ≤ 0 ∧
        (a.last < b.last ∨ (a.last = b.last ∧ (a.first < b.first ∨ a.first = b.first))))
      (show_alpha_list f) := by
    refine List.Pairwise.imp ?_ (show_alpha_list_pairwise f)
    intro a b h
    exact ⟨h, name_cmp_nonpos_explicit a.seat b.seat h⟩
  exact ⟨hp.chain', hp⟩

/-- C2 as stated fails: with seats 1 and 2 both holding `B B` and seat 3 holding
`A A`, the first pass swaps `idx[0]` with `idx[2]`, and seat 2 is printed before
seat 1 although their names are identical. -/
theorem show_alpha_list_tie_not_in_seat_order :
    (tieFlight.seat 0).assigned ≠ 0 ∧ (tieFlight.seat 1).assigned ≠ 0 ∧
    (tieFlight.seat 0).last = (tieFlight.seat 1).last ∧
    (tieFlight.seat 0).first = (tieFlight.seat 1).first ∧
    (tieFlight.seat 0).id = 1 ∧ (tieFlight.seat 1).id = 2 ∧
    show_alpha_list tieFlight
      = [{ id := 3, first := cstr "A", last := cstr "A" },
         { id := 2, first := cstr "B", last := cstr "B" },
         { id := 1, first := cstr "B", last := cstr "B" }] := by
  decide

/-- C2 (amended): two assigned seats with identical last and first names are both
printed by `show_alpha_list`, and every line printed between two lines with
identical names carries these same names (equal names form one block); the order
inside a block is the one left by the swaps of the selection sort.  When the
assigned seats are already in non-decreasing `name_cmp` order in storage order, no
swap is made and the lines are printed in storage order, so that ties are then in
ascending seat order. -/
theorem show_alpha_list_ties (f : Flight) :
    (∀ x : Fin SEATS, (f.seat x).assigned ≠ 0 → (f.seat x).row ∈ show_alpha_list f) ∧
    (∀ (p q r : Nat) (a b c : Row), p ≤ q → q ≤ r →
      (show_alpha_list f)[p]? = some a → (show_alpha_list f)[q]? = some b →
      (show_alpha_list f)[r]? = some c →
      a.last = c.last → a.first = c.first → b.last = a.last ∧ b.first = a.first) ∧
    (List.Pairwise (fun x y => name_cmp (f.seat x) (f.seat y) ≤ 0) (collect_assigned f) →
      show_alpha_list f = (collect_assigned f).map (fun k => (f.seat k).row)) := by
  refine ⟨?_, ?_, ?_⟩
  · intro x hx
    rw [show_alpha_list_eq_map]
    refine List.mem_map.mpr ⟨x, ?_, rfl⟩
    have hc := alpha_order_count f x
    rw [if_pos hx] at hc
    exact List.count_pos_iff.mp (by omega)
  · intro p q r a b c hpq hqr ha hb hc h1 h2
    have hrefl : ∀ a : Row, name_cmp a.seat a.seat ≤ 0 :=
      fun a => name_cmp_of_names_eq a.seat a.seat rfl rfl
    have hab := pairwise_getElem?_le (show_alpha_list_pairwise f) hrefl p q a b hpq ha hb
    have hbc := pairwise_getElem?_le (show_alpha_list_pairwise f) hrefl q r b c hqr hb hc
    have hca : name_cmp c.seat a.seat ≤ 0 :=
      name_cmp_of_names_eq c.seat a.seat h1.symm h2.symm
    have hba := name_cmp_trans b.seat c.seat a.seat hbc hca
    exact name_cmp_antisymm b.seat a.seat hba hab
  · intro hs
    rw [show_alpha_list_eq_map, alpha_order]
    rw [selection_sort_of_sorted f (collect_assigned f)
      (List.Pairwise.imp (fun h => (name_cmp_nonpos_iff _ _).mp h) hs)]

/-- Instances: seat 2 of `tieFlight` is printed, and `pairFlight`, whose two
assigned seats are stored in order, is printed in storage order. -/
theorem show_alpha_list_ties_witness :
    (tieFlight.seat 1).row ∈ show_alpha_list tieFlight ∧
    show_alpha_list pairFlight
      = [{ id := 1, first := cstr "B", last := cstr "B" },
         { id := 2, first := cstr "B", last := cstr "B" }] :=
  ⟨(show_alpha_list_ties tieFlight).1 1 (by decide),
   ((show_alpha_list_ties pairFlight).2.2 (by decide)).trans (by decide)⟩

/-- C3: the lines printed by `show_alpha_list` are the lines of the seats at the
indices `alpha_order`, each carrying the id and the two names stored in that seat
record; these indices are a rearrangement of the indices of the assigned seats in
storage order, so that every assigned seat occurs exactly once and no unassigned
seat occurs.  The flight is only read (it is a `const` argument). -/
theorem show_alpha_list_reports_assigned_once (f : Flight) :
    show_alpha_list f = (alpha_order f).map (fun k => (f.seat k).row) ∧
    (alpha_order f).Perm (collect_assigned f) ∧
    collect_assigned f
      = (List.finRange SEATS).filter (fun i => decide ((f.seat i).assigned ≠ 0)) ∧
    ∀ k : Fin SEATS, (alpha_order f).count k = if (f.seat k).assigned ≠ 0 then 1 else 0 :=
  ⟨show_alpha_list_eq_map f, selection_sort_perm f (collect_assigned f),
    collect_assigned_eq f, alpha_order_count f⟩

/-- C4: in a flight where seat number `s` (in 1..24) is empty, `assign_seat` with seat
number `s` and two names that are single tokens of at most 19 characters (non-empty
runs of at most 19 bytes, none of them a NUL or a whitespace byte) succeeds; in the
resulting flight seat `s` is assigned and holds exactly these names, its id is
unchanged, and every other seat is unchanged. -/
theorem assign_seat_assigns_empty_seat (f : Flight) (s : Int) (k : Fin SEATS)
    (first last : CString) (hs : 1 ≤ s ∧ s ≤ 24) (hk : (k.val : Int) = s - 1)
    (he : (f.seat k).assigned = 0)
    (hf : first ≠ [] ∧ first.length ≤ 19 ∧ ∀ b ∈ first, b ≠ 0 ∧ isspace b = false)
    (hl : last ≠ [] ∧ last.length ≤ 19 ∧ ∀ b ∈ last, b ≠ 0 ∧ isspace b = false) :
    (assign_seat f ⟨some s, first, last⟩).2 = Outcome.Assigned s first last ∧
    ((assign_seat f ⟨some s, first, last⟩).1.seat k).assigned = 1 ∧
    ((assign_seat f ⟨some s, first, last⟩).1.seat k).first = first ∧
    ((assign_seat f ⟨some s, first, last⟩).1.seat k).last = last ∧
    ((assign_seat f ⟨some s, first, last⟩).1.seat k).id = (f.seat k).id ∧
    ∀ j : Fin SEATS, j ≠ k → (assign_seat f ⟨some s, first, last⟩).1.seat j = f.seat j := by
  have _ := hs
  rw [assign_seat_success f s k first last hk he hf.1 hl.1,
    List.take_of_length_le hf.2.1, List.take_of_length_le hl.2.1,
    c_string_of_no_nul first (fun b hb => (hf.2.2 b hb).1),
    c_string_of_no_nul last (fun b hb => (hl.2.2 b hb).1)]
  refine ⟨rfl, ?_, ?_, ?_, ?_, ?_⟩
  · simp
  · simp
  · simp
  · simp
  · intro j hj
    simp [Function.update_noteq hj]

/-- Instance: `assign(7, "X", "Y")` on a freshly initialised flight. -/
theorem assign_seat_assigns_empty_seat_witness :
    ((assign_seat emptyFlight ⟨some 7, cstr "X", cstr "Y"⟩).1.seat 6).assigned = 1 ∧
    ((assign_seat emptyFlight ⟨some 7, cstr "X", cstr "Y"⟩).1.seat 6).first = cstr "X" ∧
    ((assign_seat emptyFlight ⟨some 7, cstr "X", cstr "Y"⟩).1.seat 6).last = cstr "Y" :=
  have h := assign_seat_assigns_empty_seat emptyFlight 7 6 (cstr "X") (cstr "Y")
    (by decide) (by decide) (by decide) (by decide) (by decide)
  ⟨h.2.1, h.2.2.1, h.2.2.2.1⟩

set_option maxRecDepth 100000 in
/-- C5 as stated fails on a full flight: seat 5 is assigned, yet `assign_seat` with
seat number 5 reports `No empty seats.` and not `Seat 5 is already taken.`, because
the guard on `count_empty` comes before the seat number is read. -/
theorem assign_seat_full_flight_not_already_taken :
    (fullFlight.seat 4).assigned ≠ 0 ∧
    (assign_seat fullFlight ⟨some 5, cstr "Bob", cstr "Kim"⟩).2 = Outcome.NoEmptySeats ∧
    (assign_seat fullFlight ⟨some 5, cstr "Bob", cstr "Kim"⟩).2 ≠ Outcome.AlreadyTaken 5 := by
  decide

/-- C5 (amended): when seat number `s` (in 1..24) is already assigned, `assign_seat`
with seat number `s` leaves the whole flight unchanged; it reports
`Seat s is already taken.` when the flight has at least one empty seat, and
`No empty seats.` when the flight is full. -/
theorem assign_seat_on_taken_seat (f : Flight) (s : Int) (k : Fin SEATS)
    (first last : CString) (hs : 1 ≤ s ∧ s ≤ 24) (hk : (k.val : Int) = s - 1)
    (ht : (f.seat k).assigned ≠ 0) :
    (assign_seat f ⟨some s, first, last⟩).1 = f ∧
    (count_empty f ≠ 0 →
      (assign_seat f ⟨some s, first, last⟩).2 = Outcome.AlreadyTaken s) ∧
    (count_empty f = 0 →
      (assign_seat f ⟨some s, first, last⟩).2 = Outcome.NoEmptySeats) := by
  refine ⟨?_, ?_, ?_⟩
  · by_cases hc : count_empty f = 0
    · rw [assign_seat_full f _ hc]
    · rw [assign_seat_taken f s k first last hs hk hc ht]
  · intro hc
    rw [assign_seat_taken f s k first last hs hk hc ht]
  · intro hc
    rw [assign_seat_full f _ hc]

/-- Instance: `assign(5, "Ann", "Lee")` then `assign(5, "Bob", "Kim")`; seat 5 still
holds `Ann Lee`. -/
theorem assign_seat_on_taken_seat_witness :
    (annLeeFlight.seat 4).first = cstr "Ann" ∧ (annLeeFlight.seat 4).last = cstr "Lee" ∧
    (assign_seat annLeeFlight ⟨some 5, cstr "Bob", cstr "Kim"⟩).1 = annLeeFlight ∧
    (assign_seat annLeeFlight ⟨some 5, cstr "Bob", cstr "Kim"⟩).2 = Outcome.AlreadyTaken 5 :=
  have h := assign_seat_on_taken_seat annLeeFlight 5 4 (cstr "Bob") (cstr "Kim")
    (by decide) (by decide) (by decide)
  ⟨by decide, by decide, h.1, h.2.1 (by decide)⟩

/-- C6 as stated fails at seat number 0, which is not in 1..24: both operations
report a cancellation, not `Seat out of range.`. -/
theorem seat_number_zero_not_out_of_range :
    (assign_seat emptyFlight ⟨some 0, cstr "A", cstr "B"⟩).2 = Outcome.Canceled ∧
    (assign_seat emptyFlight ⟨some 0, cstr "A", cstr "B"⟩).2 ≠ Outcome.OutOfRange ∧
    (delete_seat emptyFlight ⟨some 0, some 121⟩).2 = Outcome.Canceled ∧
    (delete_seat emptyFlight ⟨some 0, some 121⟩).2 ≠ Outcome.OutOfRange := by
  decide

/-- C6 (amended): for every seat number `s` outside 1..24, `delete_seat` and
`assign_seat` leave the flight unchanged.  `delete_seat` reports
`Seat out of range.` when `s` is not 0 and a cancellation when `s` is 0;
`assign_seat` reports the same on a flight with at least one empty seat, and
`No empty seats.` on a full flight. -/
theorem seat_number_outside_range (f : Flight) (s : Int) (first last : CString)
    (ans : Option Nat) (hs : s < 1 ∨ 24 < s) :
    delete_seat f ⟨some s, ans⟩
      = (f, if s = 0 then Outcome.Canceled else Outcome.OutOfRange) ∧
    (assign_seat f ⟨some s, first, last⟩).1 = f ∧
    (count_empty f ≠ 0 →
      (assign_seat f ⟨some s, first, last⟩).2
        = if s = 0 then Outcome.Canceled else Outcome.OutOfRange) ∧
    (count_empty f = 0 →
      (assign_seat f ⟨some s, first, last⟩).2 = Outcome.NoEmptySeats) := by
  have hr : s < 1 ∨ s > (SEATS : Int) := by simp only [SEATS]; omega
  have hassign : count_empty f ≠ 0 →
      assign_seat f ⟨some s, first, last⟩
        = (f, if s = 0 then Outcome.Canceled else Outcome.OutOfRange) := by
    intro hc
    unfold assign_seat
    by_cases h0 : s = 0
    · simp only [hc, h0, if_false, if_true]
    · simp only [hc, h0, hr, if_false, dite_true]
  refine ⟨?_, ?_, ?_, ?_⟩
  · unfold delete_seat
    by_cases h0 : s = 0
    · simp only [h0, if_true]
    · simp only [h0, hr, if_false, dite_true]
  · by_cases hc : count_empty f = 0
    · rw [assign_seat_full f _ hc]
    · rw [hassign hc]
  · intro hc
    rw [hassign hc]
  · intro hc
    rw [assign_seat_full f _ hc]

/-- Instance: seat number 25 on a flight with one assigned seat. -/
theorem seat_number_outside_range_witness :
    delete_seat annLeeFlight ⟨some 25, some 121⟩ = (annLeeFlight, Outcome.OutOfRange) ∧
    (assign_seat annLeeFlight ⟨some 25, cstr "A", cstr "B"⟩).1 = annLeeFlight ∧
    (assign_seat annLeeFlight ⟨some 25, cstr "A", cstr "B"⟩).2 = Outcome.OutOfRange :=
  have h := seat_number_outside_range annLeeFlight 25 (cstr "A") (cstr "B") (some 121)
    (by decide)
  ⟨h.1, h.2.1, h.2.2.1 (by decide)⟩

/-- C7: when seat number `s` (in 1..24) is not assigned, `delete_seat` with seat
number `s` reports `Seat s is already empty.` and leaves the whole flight
unchanged, whatever would be answered to a confirmation prompt (none is issued). -/
theorem delete_seat_on_empty_seat (f : Flight) (s : Int) (k : Fin SEATS)
    (ans : Option Nat) (hs : 1 ≤ s ∧ s ≤ 24) (hk : (k.val : Int) = s - 1)
    (he : (f.seat k).assigned = 0) :
    delete_seat f ⟨some s, ans⟩ = (f, Outcome.AlreadyEmpty s) := by
  have _ := hs
  exact delete_seat_empty f s k ans hk he

/-- Instance: `delete(3)` right after `init_flight`. -/
theorem delete_seat_on_empty_seat_witness :
    delete_seat emptyFlight ⟨some 3, some 121⟩ = (emptyFlight, Outcome.AlreadyEmpty 3) :=
  delete_seat_on_empty_seat emptyFlight 3 2 (some 121) (by decide) (by decide) (by decide)

/-- C8: when seat number `s` (in 1..24) is assigned, `delete_seat` with seat number
`s` and the answer `y` or `Y` succeeds; in the resulting flight seat `s` is not
assigned and both its names are empty, its id is unchanged, and every other seat is
unchanged. -/
theorem delete_seat_confirmed (f : Flight) (s : Int) (k : Fin SEATS) (ans : Nat)
    (hs : 1 ≤ s ∧ s ≤ 24) (hk : (k.val : Int) = s - 1)
    (ht : (f.seat k).assigned ≠ 0) (hy : ans = 121 ∨ ans = 89) :
    (delete_seat f ⟨some s, some ans⟩).2 = Outcome.Cleared ∧
    ((delete_seat f ⟨some s, some ans⟩).1.seat k).assigned = 0 ∧
    ((delete_seat f ⟨some s, some ans⟩).1.seat k).first = [] ∧
    ((delete_seat f ⟨some s, some ans⟩).1.seat k).last = [] ∧
    ((delete_seat f ⟨some s, some ans⟩).1.seat k).id = (f.seat k).id ∧
    ∀ j : Fin SEATS, j ≠ k → (delete_seat f ⟨some s, some ans⟩).1.seat j = f.seat j := by
  have _ := hs
  rw [delete_seat_answer f s k ans hk ht, if_pos ((tolower_eq_y ans).mpr hy)]
  refine ⟨rfl, ?_, ?_, ?_, ?_, ?_⟩
  · simp
  · simp
  · simp
  · simp
  · intro j hj
    simp [Function.update_noteq hj]

/-- Instance: seat 5 of `annLeeFlight` deleted with the answer `Y`. -/
theorem delete_seat_confirmed_witness :
    (delete_seat annLeeFlight ⟨some 5, some 89⟩).2 = Outcome.Cleared ∧
    ((delete_seat annLeeFlight ⟨some 5, some 89⟩).1.seat 4).assigned = 0 ∧
    ((delete_seat annLeeFlight ⟨some 5, some 89⟩).1.seat 4).first = [] :=
  have h := delete_seat_confirmed annLeeFlight 5 4 89 (by decide) (by decide) (by decide)
    (by decide)
  ⟨h.1, h.2.1, h.2.2.1⟩

/-- C9: in a flight reachable from `init_flight` where seat number `s` (in 1..24)
is empty, a successful `assign_seat` on `s` followed by a confirmed `delete_seat`
on `s` succeeds and gives back exactly the flight before the assign; seat `s` is
then as `init_flight` leaves it. -/
theorem assign_then_delete_round_trip (f : Flight) (s : Int) (k : Fin SEATS)
    (first last : CString) (ans : Nat) (hreach : Reachable f)
    (hs : 1 ≤ s ∧ s ≤ 24) (hk : (k.val : Int) = s - 1) (he : (f.seat k).assigned = 0)
    (hf : first ≠ []) (hl : last ≠ []) (hy : ans = 121 ∨ ans = 89) :
    (assign_seat f ⟨some s, first, last⟩).2
      = Outcome.Assigned s (c_string (first.take 19)) (c_string (last.take 19)) ∧
    delete_seat (assign_seat f ⟨some s, first, last⟩).1 ⟨some s, some ans⟩
      = (f, Outcome.Cleared) ∧
    ∀ g : Flight,
      (delete_seat (assign_seat f ⟨some s, first, last⟩).1 ⟨some s, some ans⟩).1.seat k
        = (init_flight g).seat k := by
  have _ := hs
  have hinv := reachable_inv hreach k
  have hseat : f.seat k = { id := (k.val : Int) + 1, assigned := 0, first := [], last := [] } := by
    have h1 := hinv.1
    have h2 := hinv.2.2 he
    cases hfk : f.seat k with
    | mk i a fi la =>
      rw [hfk] at h1 h2 he
      simp only at h1 h2 he
      rw [h1, he, h2.1, h2.2]
  have hdel : delete_seat (assign_seat f ⟨some s, first, last⟩).1 ⟨some s, some ans⟩
      = (f, Outcome.Cleared) := by
    rw [assign_seat_success f s k first last hk he hf hl]
    rw [delete_seat_answer _ s k ans hk (by simp), if_pos ((tolower_eq_y ans).mpr hy)]
    refine Prod.ext ?_ rfl
    apply Flight.ext_seat
    intro j
    by_cases hj : j = k
    · subst hj; simp [hseat]
    · simp [Function.update_noteq hj]
  refine ⟨?_, hdel, ?_⟩
  · rw [assign_seat_success f s k first last hk he hf hl]
  · intro g
    rw [hdel, init_flight_seat]
    exact hseat

/-- Instance: `assign(7, "X", "Y")` then `delete(7)` on a freshly initialised flight. -/
theorem assign_then_delete_round_trip_witness :
    delete_seat (assign_seat emptyFlight ⟨some 7, cstr "X", cstr "Y"⟩).1 ⟨some 7, some 121⟩
      = (emptyFlight, Outcome.Cleared) :=
  (assign_then_delete_round_trip emptyFlight 7 6 (cstr "X") (cstr "Y") 121
    (Reachable.init _) (by decide) (by decide) (by decide) (by decide) (by decide)
    (by decide)).2.1

/-- C10: whatever the prior state, `init_flight` leaves the seat at index `i` with
id `i + 1`, not assigned and with empty names; hence `count_empty` is 24, the list
of empty seats is 1, 2, ..., 24 and the alphabetical list is empty. -/
theorem init_flight_resets (f : Flight) :
    (∀ i : Fin SEATS, (init_flight f).seat i
      = { id := (i.val : Int) + 1, assigned := 0, first := [], last := [] }) ∧
    count_empty (init_flight f) = 24 ∧
    show_empty_list (init_flight f)
      = [1, 2, 3, 4, 5, 6, 7, 8, 9, 10, 11, 12, 13, 14, 15, 16, 17, 18, 19, 20, 21, 22, 23, 24] ∧
    show_alpha_list (init_flight f) = [] := by
  have hinit : init_flight f = emptyFlight := by
    apply Flight.ext_seat
    intro i
    rw [init_flight_seat, emptyFlight, init_flight_seat]
  refine ⟨init_flight_seat f, ?_, ?_, ?_⟩
  · rw [hinit]; decide
  · rw [hinit]; decide
  · rw [hinit]; decide

/-- C11: `count_empty` returns the number of seats whose flag `assigned` is clear;
together with the number of lines of the alphabetical list (one per assigned seat)
it makes 24, and it lies in 0..24. -/
theorem count_empty_counts_clear_flags (f : Flight) :
    count_empty f
      = ((List.finRange SEATS).filter (fun i => decide ((f.seat i).assigned = 0))).length ∧
    (show_alpha_list f).length
      = ((List.finRange SEATS).filter (fun i => decide ((f.seat i).assigned ≠ 0))).length ∧
    count_empty f + (show_alpha_list f).length = 24 ∧
    0 ≤ count_empty f ∧ count_empty f ≤ 24 := by
  have h := filter_length_add (fun i => (f.seat i).assigned = 0)
  have h1 := count_empty_eq f
  have h2 := show_alpha_list_length f
  refine ⟨h1, h2, ?_, Nat.zero_le _, ?_⟩
  · rw [h1, h2]; exact h
  · rw [h1]; omega

/-- C12: in a flight reachable from `init_flight`, the ids printed by
`show_empty_list` are strictly ascending and are exactly the ids `k + 1` of the
seats (at index `k`) that are not assigned; nothing is printed by the loop (and
`(none)` is shown) exactly when every seat is assigned. -/
theorem show_empty_list_ascending_exact (f : Flight) (h : Reachable f) :
    List.Pairwise (fun a b : Int => a < b) (show_empty_list f) ∧
    (∀ s : Int, s ∈ show_empty_list f ↔
      ∃ k : Fin SEATS, (f.seat k).id = s ∧ (f.seat k).assigned = 0) ∧
    (∀ k : Fin SEATS, (f.seat k).id = (k.val : Int) + 1) ∧
    (show_empty_list f = [] ↔ ∀ k : Fin SEATS, (f.seat k).assigned ≠ 0) := by
  refine ⟨?_, ?_, fun k => (reachable_inv h k).1, ?_⟩
  · rw [show_empty_list_reachable h, List.pairwise_map]
    refine List.Pairwise.imp ?_ (List.Pairwise.filter _ (List.pairwise_lt_finRange SEATS))
    intro a b hab
    have : a.val < b.val := hab
    omega
  · intro s
    rw [show_empty_list_eq]
    simp only [List.mem_map, List.mem_filter, List.mem_finRange, true_and, decide_eq_true_eq]
    constructor
    · rintro ⟨k, h1, h2⟩; exact ⟨k, h2, h1⟩
    · rintro ⟨k, h1, h2⟩; exact ⟨k, h2, h1⟩
  · rw [show_empty_list_eq, List.map_eq_nil_iff, List.filter_eq_nil_iff]
    simp [List.mem_finRange]

/-- Instance: the list of `annLeeFlight`, reached by one assignment, is strictly
ascending; that of a freshly initialised flight is not empty. -/
theorem show_empty_list_ascending_exact_witness :
    show_empty_list emptyFlight ≠ [] ∧
    List.Pairwise (fun a b : Int => a < b) (show_empty_list annLeeFlight) :=
  ⟨by decide,
   (show_empty_list_ascending_exact annLeeFlight (Reachable.assign _ (Reachable.init _))).1⟩

/-- C13: in a flight reachable from `init_flight` through `assign_seat` and
`delete_seat`, the ids of the empty-seat list followed by the ids of the
alphabetical list are a rearrangement of 1, 2, ..., 24 (each id occurs exactly
once), and no id occurs in both lists. -/
theorem listings_partition_the_seats (f : Flight) (h : Reachable f) :
    (show_empty_list f ++ (show_alpha_list f).map (fun r => r.id)).Perm
      [1, 2, 3, 4, 5, 6, 7, 8, 9, 10, 11, 12, 13, 14, 15, 16, 17, 18, 19, 20, 21, 22, 23, 24] ∧
    (show_empty_list f ++ (show_alpha_list f).map (fun r => r.id)).Nodup ∧
    ∀ s : Int, s ∈ show_empty_list f → s ∉ (show_alpha_list f).map (fun r => r.id) := by
  have hperm : (show_empty_list f ++ (show_alpha_list f).map (fun r => r.id)).Perm
      [1, 2, 3, 4, 5, 6, 7, 8, 9, 10, 11, 12, 13, 14, 15, 16, 17, 18, 19, 20, 21, 22, 23, 24] := by
    rw [show_empty_list_reachable h, show_alpha_list_ids_reachable h, ← finRange_ids,
      ← List.map_append]
    apply List.Perm.map
    have h1 : (alpha_order f).Perm
        ((List.finRange SEATS).filter (fun i => !decide ((f.seat i).assigned = 0))) := by
      have h3 : (fun i : Fin SEATS => decide ((f.seat i).assigned ≠ 0))
          = (fun i => !decide ((f.seat i).assigned = 0)) := by
        funext i; simp
      have h2 := selection_sort_perm f (collect_assigned f)
      unfold alpha_order
      rw [collect_assigned_eq, h3] at h2 ⊢
      exact h2
    exact (List.Perm.append_left _ h1).trans (List.filter_append_perm _ _)
  have hnd : (show_empty_list f ++ (show_alpha_list f).map (fun r => r.id)).Nodup :=
    hperm.nodup_iff.mpr (by decide)
  refine ⟨hperm, hnd, ?_⟩
  intro s hs hs2
  exact (List.nodup_append.mp hnd).2.2 hs hs2

/-- Instance: the two lists of `tieFlight`, reached by three assignments. -/
theorem listings_partition_the_seats_witness :
    (show_empty_list tieFlight ++ (show_alpha_list tieFlight).map (fun r => r.id)).Nodup :=
  (listings_partition_the_seats tieFlight
    (Reachable.assign _ (Reachable.assign _ (Reachable.assign _ (Reachable.init _))))).2.1

/-- C14: `name_cmp` is the two-key lexicographic comparison on byte values, without
case folding: it is negative exactly when the last name of `a` is ordinally smaller,
or the last names are equal and the first name of `a` is ordinally smaller, and it
is zero exactly when both names are equal.  An uppercase letter compares below the
same letter in lowercase after any common prefix, `Zeta` is below `amy`, and with
seat 1 holding `bob Zeta` and seat 2 holding `Amy zeta` the alphabetical list shows
seat 1 before seat 2. -/
theorem name_cmp_is_ordinal_two_key :
    (∀ a b : Seat, name_cmp a b < 0 ↔
      a.last < b.last ∨ (a.last = b.last ∧ a.first < b.first)) ∧
    (∀ a b : Seat, name_cmp a b = 0 ↔ a.last = b.last ∧ a.first = b.first) ∧
    (∀ (c : Nat) (p s t : CString), 65 ≤ c → c ≤ 90 →
      strcmp (p ++ c :: s) (p ++ tolower c :: t) < 0) ∧
    strcmp (cstr "Zeta") (cstr "amy") < 0 ∧
    show_alpha_list caseFlight
      = [{ id := 1, first := cstr "bob", last := cstr "Zeta" },
         { id := 2, first := cstr "Amy", last := cstr "zeta" }] := by
  refine ⟨name_cmp_neg_iff, name_cmp_eq_zero_iff, ?_, by decide, by decide⟩
  intro c p s t h1 h2
  rw [strcmp_append_left]
  have h3 : tolower c = c + 32 := by unfold tolower; simp [h1, h2]
  rw [h3, strcmp]
  simp

/-- Instance: `Zeta` is below `zeta`. -/
theorem name_cmp_is_ordinal_two_key_witness :
    strcmp (cstr "Zeta") (cstr "zeta") < 0 :=
  name_cmp_is_ordinal_two_key.2.2.1 90 [] (cstr "eta") (cstr "eta") (by decide) (by decide)

/-- C15: in every flight reachable from `init_flight` by `assign_seat` and
`delete_seat` calls, whatever their inputs and outcomes, the flight has exactly 24
seats, the seat at index `i` has id `i + 1`, and every seat whose flag `assigned`
is clear has empty first and last names. -/
theorem reachable_state_invariant (f : Flight) (h : Reachable f) :
    (List.ofFn f.seat).length = 24 ∧
    ∀ i : Fin SEATS, (f.seat i).id = (i.val : Int) + 1 ∧
      ((f.seat i).assigned = 0 → (f.seat i).first = [] ∧ (f.seat i).last = []) := by
  refine ⟨by simp, ?_⟩
  intro i
  exact ⟨(reachable_inv h i).1, (reachable_inv h i).2.2⟩

/-- Instance: the flight after `assign(7, ...)` then a confirmed `delete(7)`. -/
theorem reachable_state_invariant_witness :
    ((delete_seat (assign_seat emptyFlight ⟨some 7, cstr "X", cstr "Y"⟩).1
        ⟨some 7, some 121⟩).1.seat 6).id = 7 :=
  ((reachable_state_invariant _
    (Reachable.delete ⟨some 7, some 121⟩
      (Reachable.assign ⟨some 7, cstr "X", cstr "Y"⟩ (Reachable.init _)))).2 6).1

/-- C16: the two flights are independent.  The locals `outbound` and `inbound` of
`main` are two objects of 24 seat records that do not overlap in memory.  While the
program is in the second-level menu of one flight, a pass of that menu (a show,
`assign_seat`, `delete_seat`, the return, or an invalid choice), working through the
pointer to that flight, writes no cell outside the 24 cells of that flight, so the
seat array of the other flight is unchanged, and with it the other flight's
`count_empty`, empty-seat list and alphabetical list; a pass of the first menu
writes nothing.  The names written always fit a name field. -/
theorem flights_are_independent (s : Machine) (inp : MenuInput)
    (hsep : s.outbound + 24 ≤ s.inbound ∨ s.inbound + 24 ≤ s.outbound) :
    (main_pass_at s inp).outbound = s.outbound ∧
    (main_pass_at s inp).inbound = s.inbound ∧
    (s.menu = Menu.Outbound →
      (∀ a : Int, (a < s.outbound ∨ s.outbound + 24 ≤ a) →
        (main_pass_at s inp).mem.cell a = s.mem.cell a) ∧
      (∀ a : Int, (main_pass_at s inp).mem.cell a ≠ s.mem.cell a →
        ((main_pass_at s inp).mem.cell a).first.length < NAMELEN ∧
        ((main_pass_at s inp).mem.cell a).last.length < NAMELEN) ∧
      (flight_at (main_pass_at s inp).mem s.inbound).seat = (flight_at s.mem s.inbound).seat ∧
      count_empty (flight_at (main_pass_at s inp).mem s.inbound)
        = count_empty (flight_at s.mem s.inbound) ∧
      show_empty_list (flight_at (main_pass_at s inp).mem s.inbound)
        = show_empty_list (flight_at s.mem s.inbound) ∧
      show_alpha_list (flight_at (main_pass_at s inp).mem s.inbound)
        = show_alpha_list (flight_at s.mem s.inbound) ∧
      flight_at (main_pass_at s inp).mem s.outbound
        = (second_menu_pass (flight_at s.mem s.outbound) inp).1) ∧
    (s.menu = Menu.Inbound →
      (∀ a : Int, (a < s.inbound ∨ s.inbound + 24 ≤ a) →
        (main_pass_at s inp).mem.cell a = s.mem.cell a) ∧
      (∀ a : Int, (main_pass_at s inp).mem.cell a ≠ s.mem.cell a →
        ((main_pass_at s inp).mem.cell a).first.length < NAMELEN ∧
        ((main_pass_at s inp).mem.cell a).last.length < NAMELEN) ∧
      (flight_at (main_pass_at s inp).mem s.outbound).seat
        = (flight_at s.mem s.outbound).seat ∧
      count_empty (flight_at (main_pass_at s inp).mem s.outbound)
        = count_empty (flight_at s.mem s.outbound) ∧
      show_empty_list (flight_at (main_pass_at s inp).mem s.outbound)
        = show_empty_list (flight_at s.mem s.outbound) ∧
      show_alpha_list (flight_at (main_pass_at s inp).mem s.outbound)
        = show_alpha_list (flight_at s.mem s.outbound) ∧
      flight_at (main_pass_at s inp).mem s.inbound
        = (second_menu_pass (flight_at s.mem s.inbound) inp).1) ∧
    (s.menu = Menu.First ∨ s.menu = Menu.Quit → (main_pass_at s inp).mem = s.mem) := by
  refine ⟨(main_pass_at_pointers s inp).1, (main_pass_at_pointers s inp).2, ?_, ?_,
    main_pass_at_no_flight_menu s inp⟩
  · intro h
    rw [main_pass_at_outbound_menu s inp h]
    obtain ⟨h1, h2, h3, _⟩ := second_menu_pass_at_confined s.mem s.outbound inp
    have hother := flight_at_of_frame s.mem _ s.outbound s.inbound hsep h1
    rw [hother]
    exact ⟨h1, h2, rfl, rfl, rfl, rfl, h3⟩
  · intro h
    rw [main_pass_at_inbound_menu s inp h]
    obtain ⟨h1, h2, h3, _⟩ := second_menu_pass_at_confined s.mem s.inbound inp
    have hother := flight_at_of_frame s.mem _ s.inbound s.outbound hsep.symm h1
    rw [hother]
    exact ⟨h1, h2, rfl, rfl, rfl, rfl, h3⟩

set_option maxRecDepth 100000 in
/-- Instance: with `emptyFlight` as outbound flight at address 0 and `annLeeFlight`
as inbound flight at address 24, choice `d` with seat 7 in the outbound menu
assigns seat 7 of the outbound flight and leaves the inbound flight as it was. -/
theorem flights_are_independent_witness :
    (flight_at (main_pass_at ⟨twoFlightsMemory, 0, 24, Menu.Outbound⟩
        ⟨some 100, ⟨some 7, cstr "X", cstr "Y"⟩, ⟨none, none⟩⟩).mem 24).seat
      = (flight_at twoFlightsMemory 24).seat ∧
    ((flight_at (main_pass_at ⟨twoFlightsMemory, 0, 24, Menu.Outbound⟩
        ⟨some 100, ⟨some 7, cstr "X", cstr "Y"⟩, ⟨none, none⟩⟩).mem 0).seat 6).assigned = 1 ∧
    ((flight_at twoFlightsMemory 0).seat 6).assigned = 0 :=
  ⟨((flights_are_independent ⟨twoFlightsMemory, 0, 24, Menu.Outbound⟩
      ⟨some 100, ⟨some 7, cstr "X", cstr "Y"⟩, ⟨none, none⟩⟩ (by decide)).2.2.1 rfl).2.2.1,
   by decide, by decide⟩

/-- C18: a successful `assign_seat` lowers `count_empty` by exactly 1, a successful
(confirmed) `delete_seat` raises it by exactly 1, and every other run of either
function returns the flight unchanged, hence with the same `count_empty`; on a
flight with `count_empty` 0, `assign_seat` returns the flight unchanged whatever the
input. -/
theorem count_empty_follows_outcome (f : Flight) (ai : AssignInput) (di : DeleteInput) :
    ((∃ s a b, (assign_seat f ai).2 = Outcome.Assigned s a b) →
      count_empty (assign_seat f ai).1 + 1 = count_empty f) ∧
    ((∀ s a b, (assign_seat f ai).2 ≠ Outcome.Assigned s a b) →
      (assign_seat f ai).1 = f ∧ count_empty (assign_seat f ai).1 = count_empty f) ∧
    ((delete_seat f di).2 = Outcome.Cleared →
      count_empty (delete_seat f di).1 = count_empty f + 1) ∧
    ((delete_seat f di).2 ≠ Outcome.Cleared →
      (delete_seat f di).1 = f ∧ count_empty (delete_seat f di).1 = count_empty f) ∧
    (count_empty f = 0 → assign_seat f ai = (f, Outcome.NoEmptySeats)) := by
  refine ⟨?_, ?_, ?_, ?_, fun hc => assign_seat_full f ai hc⟩
  · rintro ⟨s, a, b, h⟩
    rcases assign_seat_result f ai with ⟨o, h1, h2⟩ | ⟨k, w1, w2, s2, h1, h2⟩
    · rw [h1] at h
      exact absurd h (h2 s a b)
    · rw [h2]
      exact count_empty_update_taken f k _ h1 (by simp)
  · intro h
    rcases assign_seat_result f ai with ⟨o, h1, _⟩ | ⟨k, w1, w2, s2, _, h2⟩
    · rw [h1]
      exact ⟨rfl, rfl⟩
    · rw [h2] at h
      exact absurd rfl (h s2 w1 w2)
  · intro h
    rcases delete_seat_result f di with ⟨o, h1, h2⟩ | ⟨k, h1, h2⟩
    · rw [h1] at h
      exact absurd h h2
    · rw [h2]
      exact count_empty_update_cleared f k _ h1 rfl
  · intro h
    rcases delete_seat_result f di with ⟨o, h1, _⟩ | ⟨k, _, h2⟩
    · rw [h1]
      exact ⟨rfl, rfl⟩
    · rw [h2] at h
      exact absurd rfl h

/-- Instance: assigning seat 7 of a freshly initialised flight leaves 23 empty
seats; deleting seat 5 of `annLeeFlight` leaves 24. -/
theorem count_empty_follows_outcome_witness :
    count_empty (assign_seat emptyFlight ⟨some 7, cstr "X", cstr "Y"⟩).1 + 1
      = count_empty emptyFlight ∧
    count_empty (delete_seat annLeeFlight ⟨some 5, some 121⟩).1
      = count_empty annLeeFlight + 1 :=
  ⟨(count_empty_follows_outcome emptyFlight ⟨some 7, cstr "X", cstr "Y"⟩ ⟨none, none⟩).1
      ⟨7, cstr "X", cstr "Y", by decide⟩,
   (count_empty_follows_outcome annLeeFlight ⟨none, [], []⟩ ⟨some 5, some 121⟩).2.2.1
      (by decide)⟩

/-- C19: with every access to `idx` and to the seat array checked, `show_alpha_list`
never fails and yields its list: the loops are bounded folds, the number `n` of
collected indices is at most 24, every write `idx[n++]` finds room and every read
or swap of `idx[i]`, `idx[j]`, `idx[minpos]` is at a position below `n`.  Every
value stored in `idx` is a seat index in 0..23, and after every pass of the outer
loop of the selection sort `idx` is a rearrangement of the indices first
collected. -/
theorem show_alpha_list_in_bounds (f : Flight) :
    show_alpha_list_checked f = some (show_alpha_list f) ∧
    ∃ idx0 : List Nat,
      collect_assigned_checked f = some idx0 ∧
      0 ≤ idx0.length ∧ idx0.length ≤ 24 ∧ (∀ v ∈ idx0, v < 24) ∧
      (∀ i, i < idx0.length - 1 →
        ∃ m, find_minpos_checked f idx0 idx0.length i = some m ∧ i ≤ m ∧ m < idx0.length) ∧
      ∀ c, c ≤ idx0.length - 1 →
        ∃ idx : List Nat,
          (List.range c).foldlM (sort_pass_checked f idx0.length) idx0 = some idx ∧
          idx.Perm idx0 ∧ idx.length = idx0.length ∧ ∀ v ∈ idx, v < 24 := by
  refine ⟨show_alpha_list_checked_eq f, (collect_assigned f).map Fin.val,
    collect_assigned_checked_eq f, Nat.zero_le _, ?_, ?_, ?_, ?_⟩
  · rw [List.length_map]
    exact collect_assigned_length_le f
  · intro v hv
    obtain ⟨k, _, rfl⟩ := List.mem_map.mp hv
    exact k.isLt
  · intro i hi
    rw [List.length_map] at hi ⊢
    obtain ⟨h1, h2, _, _⟩ :=
      find_minpos_spec f (collect_assigned f) (collect_assigned f).length i (by omega)
    exact ⟨_, find_minpos_checked_eq f _ _ i rfl (by omega), h1, h2⟩
  · intro c hc
    rw [List.length_map] at hc ⊢
    obtain ⟨h1, h2, _⟩ := sort_fold_spec f (collect_assigned f) c hc
    refine ⟨_, sort_fold_checked f (collect_assigned f) c hc, h2.map Fin.val, ?_, ?_⟩
    · rw [List.length_map, h1]
    · intro v hv
      obtain ⟨k, _, rfl⟩ := List.mem_map.mp hv
      exact k.isLt

/-- Instance: the checked run on `tieFlight` prints seats 3, 2, 1. -/
theorem show_alpha_list_in_bounds_witness :
    show_alpha_list_checked tieFlight
      = some [{ id := 3, first := cstr "A", last := cstr "A" },
              { id := 2, first := cstr "B", last := cstr "B" },
              { id := 1, first := cstr "B", last := cstr "B" }] :=
  (show_alpha_list_in_bounds tieFlight).1.trans (congrArg some (by decide))

end Solution
